import Mathlib

/-!
Shallow embedding of the 2048 grid engine and game-session coordinator from
`2048Final.py`.  Boards are lists of rows of naturals; tile-spawn randomness
(`random.choice`, `random.random`) is modelled by explicit parameters: a
natural `k` choosing the empty cell (taken modulo the number of empty cells)
and a boolean `coin` choosing the value (`true` ↦ 2, the 0.9-probability
branch; `false` ↦ 4).  Python code that raises (indexing `random.choice` on
an empty list, the unbound `new_grid` on an unrecognised direction) is
modelled by `Option`, `none` standing for the raised exception.
-/

namespace Game2048

/-- `GRID_WIDTH = 4` from the source. -/
def GRID_WIDTH : Nat := 4

/-- Python `grid[i][j]` for an in-range access. -/
def cellAt (grid : List (List Nat)) (i j : Nat) : Nat :=
  (grid.getD i []).getD j 0

/-- Python `grid[i][j] = v` for an in-range access. -/
def setCell (grid : List (List Nat)) (i j v : Nat) : List (List Nat) :=
  grid.set i ((grid.getD i []).set j v)

/-- `[(i, j) for i in range(GRID_WIDTH) for j in range(GRID_WIDTH) if grid[i][j] == 0]`
from `add_tile`. -/
def emptyTiles (grid : List (List Nat)) : List (Nat × Nat) :=
  (List.range GRID_WIDTH).flatMap (fun i =>
    (List.range GRID_WIDTH).filterMap (fun j =>
      if cellAt grid i j = 0 then some (i, j) else none))

/-- `add_tile`: picks a random empty cell and writes 2 (probability 0.9) or 4
(probability 0.1) there.  `random.choice` on the empty list raises, modelled
by `none`; the choice itself is modelled by the index `k % length`. -/
def add_tile (grid : List (List Nat)) (k : Nat) (coin : Bool) :
    Option (List (List Nat)) :=
  let empty_tiles := emptyTiles grid
  if empty_tiles.isEmpty then none
  else
    let c := empty_tiles.getD (k % empty_tiles.length) (0, 0)
    some (setCell grid c.1 c.2 (if coin then 2 else 4))

/-- `new_game`: a 4×4 all-zero grid with `add_tile` applied twice. -/
def new_game (k1 : Nat) (c1 : Bool) (k2 : Nat) (c2 : Bool) :
    Option (List (List Nat)) :=
  let grid := List.replicate GRID_WIDTH (List.replicate GRID_WIDTH 0)
  match add_tile grid k1 c1 with
  | none => none
  | some g1 => add_tile g1 k2 c2

/-- The in-place merging loop of `merge_tiles`
(`for i in range(len(merged_line) - 1): ...`), written as structural
recursion carrying the current cell: after a merge the right neighbour is
set to 0 and the scan continues from that 0, exactly as the Python loop
reads the mutated list. -/
def mergeLoopAux (cur : Nat) : List Nat → List Nat × Nat
  | [] => ([cur], 0)
  | y :: rest =>
    if cur = y then
      let r := mergeLoopAux 0 rest
      (cur * 2 :: r.1, r.2 + cur * 2)
    else
      let r := mergeLoopAux y rest
      (cur :: r.1, r.2)

/-- The merging loop applied to a whole line. -/
def mergeLoop : List Nat → List Nat × Nat
  | [] => ([], 0)
  | x :: rest => mergeLoopAux x rest

/-- `merge_tiles`: drop zeros, run the single left-to-right merge pass, drop
zeros again, right-pad with zeros to `GRID_WIDTH`; also returns the score
gained (sum of the values created by merges). -/
def merge_tiles (line : List Nat) : List Nat × Nat :=
  let merged_line := line.filter (fun x => x ≠ 0)
  let r := mergeLoop merged_line
  let merged_line2 := r.1.filter (fun x => x ≠ 0)
  (merged_line2 ++ List.replicate (GRID_WIDTH - merged_line2.length) 0, r.2)

/-- `move_left`: `merge_tiles` on every row, total score summed. -/
def move_left (grid : List (List Nat)) : List (List Nat) × Nat :=
  (grid.map (fun row => (merge_tiles row).1),
   (grid.map (fun row => (merge_tiles row).2)).sum)

/-- `move_right`: reverse each row, `merge_tiles`, reverse back. -/
def move_right (grid : List (List Nat)) : List (List Nat) × Nat :=
  (grid.map (fun row => (merge_tiles row.reverse).1.reverse),
   (grid.map (fun row => (merge_tiles row.reverse).2)).sum)

/-- Python `list(map(list, zip(*grid)))`: row `j` of the result is the list
of the `j`-th entries of the rows, for `j` below the shortest row length
(`zip` stops at the shortest iterator; with no rows it yields nothing). -/
def transpose (grid : List (List Nat)) : List (List Nat) :=
  let minLen := match grid.map List.length with
    | [] => 0
    | n :: ns => ns.foldl min n
  (List.range minLen).map (fun j => grid.map (fun row => row.getD j 0))

/-- `move_up`: transpose, `move_left`, transpose back. -/
def move_up (grid : List (List Nat)) : List (List Nat) × Nat :=
  let r := move_left (transpose grid)
  (transpose r.1, r.2)

/-- `move_down`: transpose, `move_right`, transpose back. -/
def move_down (grid : List (List Nat)) : List (List Nat) × Nat :=
  let r := move_right (transpose grid)
  (transpose r.1, r.2)

/-- `move`: dispatch on the direction character; the changed flag is
`any(old_row != new_row for old_row, new_row in zip(grid, new_grid))`.
A direction outside `a`, `d`, `w`, `s` leaves `new_grid` unbound, so the
Python function raises there: `none`. -/
def move (grid : List (List Nat)) (direction : Char) :
    Option (List (List Nat) × Nat × Bool) :=
  let res : Option (List (List Nat) × Nat) :=
    if direction = 'a' then some (move_left grid)
    else if direction = 'd' then some (move_right grid)
    else if direction = 'w' then some (move_up grid)
    else if direction = 's' then some (move_down grid)
    else none
  res.map (fun p =>
    (p.1, p.2, (grid.zip p.1).any (fun q => decide (q.1 ≠ q.2))))

/-- The per-line scan of `is_game_over`:
`for x, y in zip(row[:-1], row[1:]): if x == y or x == 0 or y == 0: return False`. -/
def lineHasMove (row : List Nat) : Bool :=
  (row.dropLast.zip (row.drop 1)).any
    (fun p => decide (p.1 = p.2 ∨ p.1 = 0 ∨ p.2 = 0))

/-- `is_game_over`: true iff no row and no column of the transpose contains
an equal adjacent pair or a zero in an adjacent pair. -/
def is_game_over (grid : List (List Nat)) : Bool :=
  !(grid.any lineHasMove || (transpose grid).any lineHasMove)

/-- The mutable `GAME_STATE` dictionary: grid, score, high score. -/
structure GameState where
  grid : List (List Nat)
  score : Nat
  high_score : Nat
  deriving Repr, DecidableEq

/-- `move_tiles` (the `/move` coordinator): on a recognised direction apply
`move`; if the grid changed, spawn a tile, add the gained score and raise
the high score when exceeded; otherwise install the (equal) returned grid.
An unrecognised direction leaves the state untouched.  `none` models an
exception escaping (`move` or `add_tile` raising). -/
def move_tiles (direction : Char) (st : GameState) (k : Nat) (coin : Bool) :
    Option GameState :=
  if direction = 'w' ∨ direction = 'a' ∨ direction = 's' ∨ direction = 'd' then
    match move st.grid direction with
    | none => none
    | some (new_grid, addedScore, moved) =>
      if moved then
        match add_tile new_grid k coin with
        | none => none
        | some g2 =>
          let score2 := st.score + addedScore
          some { grid := g2, score := score2,
                 high_score :=
                   if score2 > st.high_score then score2 else st.high_score }
      else
        some { st with grid := new_grid }
  else
    some st

/-- `restart_game` (the `/restart` coordinator): new grid via `new_game`,
score reset to 0, high score untouched. -/
def restart_game (st : GameState) (k1 : Nat) (c1 : Bool) (k2 : Nat) (c2 : Bool) :
    Option GameState :=
  match new_game k1 c1 k2 c2 with
  | none => none
  | some g => some { grid := g, score := 0, high_score := st.high_score }

/-- One externally triggered operation on the session state. -/
inductive Op where
  | moveOp (d : Char) (k : Nat) (coin : Bool)
  | restartOp (k1 : Nat) (c1 : Bool) (k2 : Nat) (c2 : Bool)

/-- Run one operation. -/
def step (st : GameState) : Op → Option GameState
  | Op.moveOp d k coin => move_tiles d st k coin
  | Op.restartOp k1 c1 k2 c2 => restart_game st k1 c1 k2 c2

/-- Run a list of operations from a starting state. -/
def runOps (st : GameState) : List Op → Option GameState
  | [] => some st
  | op :: ops =>
    match step st op with
    | none => none
    | some st2 => runOps st2 ops

/-- Sum of all cell values of a board. -/
def boardSum (grid : List (List Nat)) : Nat :=
  (grid.map List.sum).sum

/-- Number of nonzero cells of a board. -/
def countNonzero (grid : List (List Nat)) : Nat :=
  (grid.map (fun row => (row.filter (fun x => x ≠ 0)).length)).sum

/-- A legal tile value: 0 (empty) or a power of 2 that is at least 2. -/
def IsTile (x : Nat) : Prop :=
  x = 0 ∨ ∃ n, 1 ≤ n ∧ x = 2 ^ n

/-- The spec-side terminal-state predicate: no empty cell, and no two
horizontally- or vertically-adjacent cells equal. -/
def NoEmptyNoAdjacent (grid : List (List Nat)) : Prop :=
  (∀ x ∈ grid.flatten, x ≠ 0) ∧
  (∀ row ∈ grid, List.Chain' (fun x y => x ≠ y) row) ∧
  (∀ col ∈ transpose grid, List.Chain' (fun x y => x ≠ y) col)

theorem mergeLoopAux_length (l : List Nat) :
    ∀ cur, (mergeLoopAux cur l).1.length = l.length + 1 := by
  induction l with
  | nil => intro cur; simp [mergeLoopAux]
  | cons y rest ih =>
    intro cur
    simp only [mergeLoopAux]
    split_ifs <;> simp [ih]

theorem mergeLoopAux_sum (l : List Nat) :
    ∀ cur, (mergeLoopAux cur l).1.sum = cur + l.sum := by
  induction l with
  | nil => intro cur; simp [mergeLoopAux]
  | cons y rest ih =>
    intro cur
    simp only [mergeLoopAux]
    split_ifs with h
    · simp only [List.sum_cons, ih]
      omega
    · simp [List.sum_cons, ih]

theorem filter_cons_zero (rest : List Nat) :
    List.filter (fun x => x ≠ 0) (0 :: rest) = List.filter (fun x => x ≠ 0) rest := by
  rw [List.filter_cons]
  norm_num

theorem filter_cons_nonzero (x : Nat) (rest : List Nat) (hx : x ≠ 0) :
    List.filter (fun x => x ≠ 0) (x :: rest) =
      x :: List.filter (fun x => x ≠ 0) rest := by
  rw [List.filter_cons]
  simp [hx]

theorem filter_ne_zero_sum (l : List Nat) :
    (l.filter (fun x => x ≠ 0)).sum = l.sum := by
  induction l with
  | nil => rfl
  | cons x rest ih =>
    by_cases hx : x = 0
    · subst hx
      rw [filter_cons_zero, ih, List.sum_cons]
      omega
    · rw [filter_cons_nonzero x rest hx, List.sum_cons, List.sum_cons, ih]

theorem merge_tiles_sum (l : List Nat) : (merge_tiles l).1.sum = l.sum := by
  simp only [merge_tiles]
  rw [List.sum_append, List.sum_replicate, smul_zero, add_zero,
    filter_ne_zero_sum]
  cases hl : l.filter (fun x => x ≠ 0) with
  | nil =>
    have h0 := filter_ne_zero_sum l
    rw [hl] at h0
    simp only [mergeLoop]
    simpa using h0
  | cons x rest =>
    have h0 := filter_ne_zero_sum l
    rw [hl] at h0
    rw [List.sum_cons] at h0
    simp only [mergeLoop]
    rw [mergeLoopAux_sum]
    omega

theorem merge_tiles_length (l : List Nat) (h : l.length ≤ GRID_WIDTH) :
    (merge_tiles l).1.length = GRID_WIDTH := by
  have h1 : (l.filter (fun x => x ≠ 0)).length ≤ l.length :=
    List.length_filter_le _ _
  simp only [merge_tiles]
  rw [List.length_append, List.length_replicate]
  cases hl : l.filter (fun x => x ≠ 0) with
  | nil =>
    simp [mergeLoop]
  | cons x rest =>
    rw [hl] at h1
    have h2 : ((mergeLoop (x :: rest)).1.filter (fun y => y ≠ 0)).length ≤
        (x :: rest).length := by
      calc ((mergeLoop (x :: rest)).1.filter (fun y => y ≠ 0)).length
          ≤ (mergeLoop (x :: rest)).1.length := List.length_filter_le _ _
        _ = (x :: rest).length := by
            simp [mergeLoop, mergeLoopAux_length]
    simp only [GRID_WIDTH] at h ⊢
    simp only [List.length_cons] at h1 h2
    omega

theorem exists_four (l : List Nat) (h : l.length = 4) :
    ∃ a b c d, l = [a, b, c, d] := by
  match l, h with
  | [a, b, c, d], _ => exact ⟨a, b, c, d, rfl⟩

theorem merge_tiles_four (a b c d : Nat) :
    ∃ w x y z, (merge_tiles [a, b, c, d]).1 = [w, x, y, z] := by
  exact exists_four _ (merge_tiles_length [a, b, c, d] (by simp [GRID_WIDTH]))

/-- Doubling preserves legal tile values. -/
theorem isTile_double {x : Nat} (h : IsTile x) : IsTile (x * 2) := by
  rcases h with h | ⟨n, hn, rfl⟩
  · subst h; exact Or.inl rfl
  · exact Or.inr ⟨n + 1, by omega, by ring⟩

/-- Every cell produced by the merging loop is a legal tile value when the
inputs are. -/
theorem mergeLoopAux_isTile (l : List Nat) :
    ∀ cur, IsTile cur → (∀ x ∈ l, IsTile x) →
      ∀ x ∈ (mergeLoopAux cur l).1, IsTile x := by
  induction l with
  | nil =>
    intro cur hcur _ x hx
    simp [mergeLoopAux] at hx
    subst hx; exact hcur
  | cons y rest ih =>
    intro cur hcur hl x hx
    have hy : IsTile y := hl y (by simp)
    have hrest : ∀ x ∈ rest, IsTile x := fun x hx => hl x (by simp [hx])
    simp only [mergeLoopAux] at hx
    split_ifs at hx with h
    · rcases List.mem_cons.mp hx with rfl | hx2
      · exact isTile_double hcur
      · exact ih 0 (Or.inl rfl) hrest x hx2
    · rcases List.mem_cons.mp hx with rfl | hx2
      · exact hcur
      · exact ih y hy hrest x hx2

/-- `merge_tiles` writes only legal tile values when fed legal tile values. -/
theorem merge_tiles_isTile (l : List Nat) (h : ∀ x ∈ l, IsTile x) :
    ∀ x ∈ (merge_tiles l).1, IsTile x := by
  intro x hx
  simp only [merge_tiles] at hx
  rcases List.mem_append.mp hx with hx | hx
  · have hx2 := List.mem_of_mem_filter hx
    cases hl : l.filter (fun t => t ≠ 0) with
    | nil =>
      rw [hl] at hx2
      simp [mergeLoop] at hx2
    | cons c rest =>
      rw [hl] at hx2
      simp only [mergeLoop] at hx2
      have hc : IsTile c :=
        h c (List.mem_of_mem_filter (hl ▸ List.mem_cons_self c rest))
      have hrest : ∀ t ∈ rest, IsTile t := by
        intro t ht
        exact h t (List.mem_of_mem_filter (hl ▸ List.mem_cons_of_mem c ht))
      exact mergeLoopAux_isTile rest c hc hrest x hx2
  · have := List.eq_of_mem_replicate hx
    subst this
    exact Or.inl rfl

set_option maxHeartbeats 1000000 in
/-- `merge_tiles` fixes a 4-cell line exactly when its zeros only trail and
no nonzero cell equals its right neighbour. -/
theorem merge_unchanged_iff (a b c d : Nat) :
    (merge_tiles [a, b, c, d]).1 = [a, b, c, d] ↔
      ((a = 0 → b = 0) ∧ (b = 0 → c = 0) ∧ (c = 0 → d = 0) ∧
       (a ≠ 0 → a ≠ b) ∧ (b ≠ 0 → b ≠ c) ∧ (c ≠ 0 → c ≠ d)) := by
  by_cases ha : a = 0 <;> by_cases hb : b = 0 <;> by_cases hc : c = 0 <;>
    by_cases hd : d = 0 <;>
    simp [merge_tiles, mergeLoop, mergeLoopAux, ha, hb, hc, hd,
      List.filter, GRID_WIDTH] <;>
    split_ifs <;> simp_all

set_option maxHeartbeats 1000000 in
/-- A 4-cell line that `merge_tiles` does not fix acquires an empty cell. -/
theorem merge_changed_mem_zero (a b c d : Nat)
    (h : (merge_tiles [a, b, c, d]).1 ≠ [a, b, c, d]) :
    0 ∈ (merge_tiles [a, b, c, d]).1 := by
  by_cases ha : a = 0 <;> by_cases hb : b = 0 <;> by_cases hc : c = 0 <;>
    by_cases hd : d = 0 <;>
    simp_all [merge_tiles, mergeLoop, mergeLoopAux, List.filter, GRID_WIDTH] <;>
    split_ifs <;> simp_all

theorem mem_emptyTiles (grid : List (List Nat)) (i j : Nat) :
    (i, j) ∈ emptyTiles grid ↔
      i < GRID_WIDTH ∧ j < GRID_WIDTH ∧ cellAt grid i j = 0 := by
  simp only [emptyTiles, List.mem_flatMap, List.mem_filterMap, List.mem_range]
  constructor
  · rintro ⟨i2, hi2, j2, hj2, hij⟩
    by_cases h : cellAt grid i2 j2 = 0
    · rw [if_pos h, Option.some.injEq, Prod.mk.injEq] at hij
      obtain ⟨rfl, rfl⟩ := hij
      exact ⟨hi2, hj2, h⟩
    · rw [if_neg h] at hij
      exact absurd hij (by simp)
  · rintro ⟨hi, hj, h0⟩
    exact ⟨i, hi, j, hj, by simp [h0]⟩

theorem add_tile_eq_none_iff (grid : List (List Nat)) (k : Nat) (coin : Bool) :
    add_tile grid k coin = none ↔ emptyTiles grid = [] := by
  simp only [add_tile]
  split_ifs with h
  · simpa using List.isEmpty_iff.mp h
  · simp
    intro hnil
    exact h (by simp [hnil])

theorem emptyTiles_mk_nil_iff (a b c d e f g h i j k l m n o p : Nat) :
    emptyTiles [[a, b, c, d], [e, f, g, h], [i, j, k, l], [m, n, o, p]] = [] ↔
      (a ≠ 0 ∧ b ≠ 0 ∧ c ≠ 0 ∧ d ≠ 0 ∧ e ≠ 0 ∧ f ≠ 0 ∧ g ≠ 0 ∧ h ≠ 0 ∧
       i ≠ 0 ∧ j ≠ 0 ∧ k ≠ 0 ∧ l ≠ 0 ∧ m ≠ 0 ∧ n ≠ 0 ∧ o ≠ 0 ∧ p ≠ 0) := by
  rw [List.eq_nil_iff_forall_not_mem]
  constructor
  · intro hmem
    refine ⟨?_, ?_, ?_, ?_, ?_, ?_, ?_, ?_, ?_, ?_, ?_, ?_, ?_, ?_, ?_, ?_⟩ <;>
      intro h0 <;>
      [exact hmem (0,0) ((mem_emptyTiles _ 0 0).mpr ⟨by decide, by decide, by simp [cellAt, h0]⟩);
       exact hmem (0,1) ((mem_emptyTiles _ 0 1).mpr ⟨by decide, by decide, by simp [cellAt, h0]⟩);
       exact hmem (0,2) ((mem_emptyTiles _ 0 2).mpr ⟨by decide, by decide, by simp [cellAt, h0]⟩);
       exact hmem (0,3) ((mem_emptyTiles _ 0 3).mpr ⟨by decide, by decide, by simp [cellAt, h0]⟩);
       exact hmem (1,0) ((mem_emptyTiles _ 1 0).mpr ⟨by decide, by decide, by simp [cellAt, h0]⟩);
       exact hmem (1,1) ((mem_emptyTiles _ 1 1).mpr ⟨by decide, by decide, by simp [cellAt, h0]⟩);
       exact hmem (1,2) ((mem_emptyTiles _ 1 2).mpr ⟨by decide, by decide, by simp [cellAt, h0]⟩);
       exact hmem (1,3) ((mem_emptyTiles _ 1 3).mpr ⟨by decide, by decide, by simp [cellAt, h0]⟩);
       exact hmem (2,0) ((mem_emptyTiles _ 2 0).mpr ⟨by decide, by decide, by simp [cellAt, h0]⟩);
       exact hmem (2,1) ((mem_emptyTiles _ 2 1).mpr ⟨by decide, by decide, by simp [cellAt, h0]⟩);
       exact hmem (2,2) ((mem_emptyTiles _ 2 2).mpr ⟨by decide, by decide, by simp [cellAt, h0]⟩);
       exact hmem (2,3) ((mem_emptyTiles _ 2 3).mpr ⟨by decide, by decide, by simp [cellAt, h0]⟩);
       exact hmem (3,0) ((mem_emptyTiles _ 3 0).mpr ⟨by decide, by decide, by simp [cellAt, h0]⟩);
       exact hmem (3,1) ((mem_emptyTiles _ 3 1).mpr ⟨by decide, by decide, by simp [cellAt, h0]⟩);
       exact hmem (3,2) ((mem_emptyTiles _ 3 2).mpr ⟨by decide, by decide, by simp [cellAt, h0]⟩);
       exact hmem (3,3) ((mem_emptyTiles _ 3 3).mpr ⟨by decide, by decide, by simp [cellAt, h0]⟩)]
  · rintro ⟨ha, hb, hc, hd, he, hf, hg, hh, hi, hj, hk, hl, hm, hn, ho, hp⟩
    rintro ⟨i2, j2⟩ hmem
    rw [mem_emptyTiles] at hmem
    obtain ⟨hi2, hj2, h0⟩ := hmem
    simp only [GRID_WIDTH] at hi2 hj2
    interval_cases i2 <;> interval_cases j2 <;> simp_all [cellAt]

/-- A 4×4 board literal from its 16 cells, row-major. -/
def mkBoard (a b c d e f g h i j k l m n o p : Nat) : List (List Nat) :=
  [[a, b, c, d], [e, f, g, h], [i, j, k, l], [m, n, o, p]]

/-- `transpose` on a 4×4 literal. -/
theorem transpose_mk (q1 q2 q3 q4 q5 q6 q7 q8 q9 q10 q11 q12 q13 q14 q15 q16 : Nat) :
    transpose [[q1, q2, q3, q4], [q5, q6, q7, q8], [q9, q10, q11, q12], [q13, q14, q15, q16]] =
      [[q1, q5, q9, q13], [q2, q6, q10, q14], [q3, q7, q11, q15], [q4, q8, q12, q16]] := rfl

/-- The `isGridUpdated` comparison on two 4-row boards is the boards'
disequality. -/
theorem changed_flag_iff (r1 r2 r3 r4 s1 s2 s3 s4 : List Nat) :
    ((([r1, r2, r3, r4].zip [s1, s2, s3, s4]).any
        (fun q => decide (q.1 ≠ q.2))) = true) ↔
      ¬ ([s1, s2, s3, s4] = [r1, r2, r3, r4]) := by
  simp [List.zip]
  tauto

/-- For a valid direction the changed flag of `move` is true exactly when
the returned board differs from the input board. -/
theorem move_changed_flag_iff (a b c d e f g h i j k l m n o p : Nat)
    (dir : Char) (hdir : dir = 'a' ∨ dir = 'd' ∨ dir = 'w' ∨ dir = 's')
    (g2 : List (List Nat)) (s : Nat) (chg : Bool)
    (hmv : move (mkBoard a b c d e f g h i j k l m n o p) dir =
      some (g2, s, chg)) :
    chg = true ↔ g2 ≠ mkBoard a b c d e f g h i j k l m n o p := by
  rcases hdir with rfl | rfl | rfl | rfl
  · simp only [move, mkBoard, move_left, List.map, reduceIte,
      Option.map_some', Option.some.injEq, Prod.mk.injEq] at hmv
    obtain ⟨hg, hs, hchg⟩ := hmv
    subst hg hchg
    rw [changed_flag_iff]
    simp [mkBoard, eq_comm]
  · simp only [move, mkBoard, move_right, List.map, reduceIte, Char.reduceEq,
      List.reverse_cons, List.reverse_nil, List.nil_append, List.cons_append,
      Option.map_some', Option.some.injEq, Prod.mk.injEq] at hmv
    obtain ⟨hg, hs, hchg⟩ := hmv
    subst hg hchg
    rw [changed_flag_iff]
    simp [mkBoard, eq_comm]
  · obtain ⟨a1, a2, a3, a4, hA⟩ := merge_tiles_four a e i m
    obtain ⟨b1, b2, b3, b4, hB⟩ := merge_tiles_four b f j n
    obtain ⟨c1, c2, c3, c4, hC⟩ := merge_tiles_four c g k o
    obtain ⟨d1, d2, d3, d4, hD⟩ := merge_tiles_four d h l p
    simp only [move, mkBoard, move_up, reduceIte, Char.reduceEq] at hmv
    rw [transpose_mk] at hmv
    simp only [move_left, List.map] at hmv
    rw [hA, hB, hC, hD, transpose_mk] at hmv
    simp only [Option.map_some', Option.some.injEq, Prod.mk.injEq] at hmv
    obtain ⟨hg, hs, hchg⟩ := hmv
    subst hg hchg
    rw [changed_flag_iff]
    simp [mkBoard, eq_comm]
  · obtain ⟨a1, a2, a3, a4, hA⟩ := merge_tiles_four m i e a
    obtain ⟨b1, b2, b3, b4, hB⟩ := merge_tiles_four n j f b
    obtain ⟨c1, c2, c3, c4, hC⟩ := merge_tiles_four o k g c
    obtain ⟨d1, d2, d3, d4, hD⟩ := merge_tiles_four p l h d
    simp only [move, mkBoard, move_down, reduceIte, Char.reduceEq] at hmv
    rw [transpose_mk] at hmv
    simp only [move_right, List.map, List.reverse_cons, List.reverse_nil,
      List.nil_append, List.cons_append] at hmv
    rw [hA, hB, hC, hD] at hmv
    simp only [List.reverse_cons, List.reverse_nil, List.nil_append,
      List.cons_append] at hmv
    rw [transpose_mk] at hmv
    simp only [Option.map_some', Option.some.injEq, Prod.mk.injEq] at hmv
    obtain ⟨hg, hs, hchg⟩ := hmv
    subst hg hchg
    rw [changed_flag_iff]
    simp [mkBoard, eq_comm]

/-- C5: for a valid direction the changed flag of `move` is true exactly when
the returned board differs from the input board, the comparison being of the
boards themselves (a zero-score shift still reports changed). -/
theorem changed_iff_board_differs (a b c d e f g h i j k l m n o p : Nat)
    (dir : Char) (hdir : dir = 'a' ∨ dir = 'd' ∨ dir = 'w' ∨ dir = 's')
    (g2 : List (List Nat)) (s : Nat) (chg : Bool)
    (hmv : move (mkBoard a b c d e f g h i j k l m n o p) dir =
      some (g2, s, chg)) :
    chg = true ↔ g2 ≠ mkBoard a b c d e f g h i j k l m n o p :=
  move_changed_flag_iff a b c d e f g h i j k l m n o p dir hdir g2 s chg hmv

/-- Witness for C5 at a concrete shift-only move: a lone 2 pushed right
changes the board with zero score. -/
theorem changed_iff_board_differs_witness :
    (true = true ↔
      ([[0, 0, 0, 2], [0, 0, 0, 0], [0, 0, 0, 0], [0, 0, 0, 0]] : List (List Nat)) ≠
        mkBoard 2 0 0 0 0 0 0 0 0 0 0 0 0 0 0 0) :=
  changed_iff_board_differs 2 0 0 0 0 0 0 0 0 0 0 0 0 0 0 0 'd'
    (Or.inr (Or.inl rfl))
    [[0, 0, 0, 2], [0, 0, 0, 0], [0, 0, 0, 0], [0, 0, 0, 0]] 0 true
    (by decide)

/-- `add_tile` cannot fail on a 4×4 board that has an empty cell. -/
theorem add_tile_ne_none_of_zero (g2 : List (List Nat))
    (hlen : g2.length = GRID_WIDTH)
    (hrows : ∀ r ∈ g2, r.length = GRID_WIDTH) (hz : 0 ∈ g2.flatten)
    (k : Nat) (coin : Bool) : add_tile g2 k coin ≠ none := by
  rw [Ne, add_tile_eq_none_iff, List.eq_nil_iff_forall_not_mem]
  intro hall
  obtain ⟨row, hrow, h0⟩ := List.mem_flatten.mp hz
  obtain ⟨i, hi, hgi⟩ := List.mem_iff_getElem.mp hrow
  obtain ⟨j, hj, hrj⟩ := List.mem_iff_getElem.mp h0
  apply hall (i, j)
  rw [mem_emptyTiles]
  refine ⟨by omega, ?_, ?_⟩
  · have := hrows row hrow
    omega
  · simp only [cellAt]
    rw [List.getD_eq_getElem g2 [] hi, hgi, List.getD_eq_getElem row 0 hj, hrj]

/-- Reversed-line variant of `merge_changed_mem_zero`, as used by the
right/down moves. -/
theorem merge_rev_changed_mem_zero (a b c d : Nat)
    (h : (merge_tiles [d, c, b, a]).1.reverse ≠ [a, b, c, d]) :
    0 ∈ (merge_tiles [d, c, b, a]).1 := by
  apply merge_changed_mem_zero
  intro heq
  apply h
  rw [heq]
  simp

/-- A `move` that reports changed produces a 4×4 board containing an empty
cell. -/
theorem changed_move_shape (a b c d e f g h i j k l m n o p : Nat)
    (dir : Char) (hdir : dir = 'a' ∨ dir = 'd' ∨ dir = 'w' ∨ dir = 's')
    (g2 : List (List Nat)) (s : Nat)
    (hmv : move (mkBoard a b c d e f g h i j k l m n o p) dir =
      some (g2, s, true)) :
    0 ∈ g2.flatten ∧ g2.length = GRID_WIDTH ∧
      ∀ r ∈ g2, r.length = GRID_WIDTH := by
    rcases hdir with rfl | rfl | rfl | rfl
    · simp only [move, mkBoard, move_left, List.map, reduceIte,
        Option.map_some', Option.some.injEq, Prod.mk.injEq] at hmv
      obtain ⟨hg, hs, hchg⟩ := hmv
      rw [changed_flag_iff] at hchg
      subst hg
      refine ⟨?_, by simp [GRID_WIDTH], ?_⟩
      · by_cases h1 : (merge_tiles [a, b, c, d]).1 = [a, b, c, d]
        · by_cases h2 : (merge_tiles [e, f, g, h]).1 = [e, f, g, h]
          · by_cases h3 : (merge_tiles [i, j, k, l]).1 = [i, j, k, l]
            · by_cases h4 : (merge_tiles [m, n, o, p]).1 = [m, n, o, p]
              · exact absurd (by rw [h1, h2, h3, h4]) hchg
              · have := merge_changed_mem_zero m n o p h4
                simp only [List.flatten, List.mem_append]
                simp [this]
            · have := merge_changed_mem_zero i j k l h3
              simp only [List.flatten, List.mem_append]
              simp [this]
          · have := merge_changed_mem_zero e f g h h2
            simp only [List.flatten, List.mem_append]
            simp [this]
        · have := merge_changed_mem_zero a b c d h1
          simp only [List.flatten, List.mem_append]
          simp [this]
      · intro r hr
        simp only [List.mem_cons, List.not_mem_nil, or_false] at hr
        rcases hr with rfl | rfl | rfl | rfl <;>
          exact merge_tiles_length _ (by simp [GRID_WIDTH])
    · simp only [move, mkBoard, move_right, List.map, reduceIte,
        Char.reduceEq, List.reverse_cons, List.reverse_nil, List.nil_append,
        List.cons_append, Option.map_some', Option.some.injEq,
        Prod.mk.injEq] at hmv
      obtain ⟨hg, hs, hchg⟩ := hmv
      rw [changed_flag_iff] at hchg
      subst hg
      refine ⟨?_, by simp [GRID_WIDTH], ?_⟩
      · by_cases h1 : (merge_tiles [d, c, b, a]).1.reverse = [a, b, c, d]
        · by_cases h2 : (merge_tiles [h, g, f, e]).1.reverse = [e, f, g, h]
          · by_cases h3 : (merge_tiles [l, k, j, i]).1.reverse = [i, j, k, l]
            · by_cases h4 : (merge_tiles [p, o, n, m]).1.reverse = [m, n, o, p]
              · exact absurd (by rw [h1, h2, h3, h4]) hchg
              · have := merge_rev_changed_mem_zero m n o p h4
                simp only [List.flatten, List.mem_append]
                simp [List.mem_reverse, this]
            · have := merge_rev_changed_mem_zero i j k l h3
              simp only [List.flatten, List.mem_append]
              simp [List.mem_reverse, this]
          · have := merge_rev_changed_mem_zero e f g h h2
            simp only [List.flatten, List.mem_append]
            simp [List.mem_reverse, this]
        · have := merge_rev_changed_mem_zero a b c d h1
          simp only [List.flatten, List.mem_append]
          simp [List.mem_reverse, this]
      · intro r hr
        simp only [List.mem_cons, List.not_mem_nil, or_false] at hr
        rcases hr with rfl | rfl | rfl | rfl <;>
          (rw [List.length_reverse]; exact merge_tiles_length _ (by simp [GRID_WIDTH]))
    · obtain ⟨a1, a2, a3, a4, hA⟩ := merge_tiles_four a e i m
      obtain ⟨b1, b2, b3, b4, hB⟩ := merge_tiles_four b f j n
      obtain ⟨c1, c2, c3, c4, hC⟩ := merge_tiles_four c g k o
      obtain ⟨d1, d2, d3, d4, hD⟩ := merge_tiles_four d h l p
      simp only [move, mkBoard, move_up, reduceIte, Char.reduceEq] at hmv
      rw [transpose_mk] at hmv
      simp only [move_left, List.map] at hmv
      rw [hA, hB, hC, hD, transpose_mk] at hmv
      simp only [Option.map_some', Option.some.injEq, Prod.mk.injEq] at hmv
      obtain ⟨hg, hs, hchg⟩ := hmv
      rw [changed_flag_iff] at hchg
      subst hg
      refine ⟨?_, by simp [GRID_WIDTH], ?_⟩
      · by_cases h1 : (merge_tiles [a, e, i, m]).1 = [a, e, i, m]
        · by_cases h2 : (merge_tiles [b, f, j, n]).1 = [b, f, j, n]
          · by_cases h3 : (merge_tiles [c, g, k, o]).1 = [c, g, k, o]
            · by_cases h4 : (merge_tiles [d, h, l, p]).1 = [d, h, l, p]
              · exfalso
                apply hchg
                have e1 := hA.symm.trans h1
                have e2 := hB.symm.trans h2
                have e3 := hC.symm.trans h3
                have e4 := hD.symm.trans h4
                simp only [List.cons.injEq, and_true] at e1 e2 e3 e4
                obtain ⟨rfl, rfl, rfl, rfl⟩ := e1
                obtain ⟨rfl, rfl, rfl, rfl⟩ := e2
                obtain ⟨rfl, rfl, rfl, rfl⟩ := e3
                obtain ⟨rfl, rfl, rfl, rfl⟩ := e4
                rfl
              · have hz := merge_changed_mem_zero d h l p h4
                rw [hD] at hz
                simp only [List.mem_cons, List.not_mem_nil, or_false] at hz
                simp only [List.flatten, List.mem_append]
                rcases hz with h0 | h0 | h0 | h0 <;> simp [← h0]
            · have hz := merge_changed_mem_zero c g k o h3
              rw [hC] at hz
              simp only [List.mem_cons, List.not_mem_nil, or_false] at hz
              simp only [List.flatten, List.mem_append]
              rcases hz with h0 | h0 | h0 | h0 <;> simp [← h0]
          · have hz := merge_changed_mem_zero b f j n h2
            rw [hB] at hz
            simp only [List.mem_cons, List.not_mem_nil, or_false] at hz
            simp only [List.flatten, List.mem_append]
            rcases hz with h0 | h0 | h0 | h0 <;> simp [← h0]
        · have hz := merge_changed_mem_zero a e i m h1
          rw [hA] at hz
          simp only [List.mem_cons, List.not_mem_nil, or_false] at hz
          simp only [List.flatten, List.mem_append]
          rcases hz with h0 | h0 | h0 | h0 <;> simp [← h0]
      · intro r hr
        simp only [List.mem_cons, List.not_mem_nil, or_false] at hr
        rcases hr with rfl | rfl | rfl | rfl <;> simp [GRID_WIDTH]
    · obtain ⟨a1, a2, a3, a4, hA⟩ := merge_tiles_four m i e a
      obtain ⟨b1, b2, b3, b4, hB⟩ := merge_tiles_four n j f b
      obtain ⟨c1, c2, c3, c4, hC⟩ := merge_tiles_four o k g c
      obtain ⟨d1, d2, d3, d4, hD⟩ := merge_tiles_four p l h d
      simp only [move, mkBoard, move_down, reduceIte, Char.reduceEq] at hmv
      rw [transpose_mk] at hmv
      simp only [move_right, List.map, List.reverse_cons, List.reverse_nil,
        List.nil_append, List.cons_append] at hmv
      rw [hA, hB, hC, hD] at hmv
      simp only [List.reverse_cons, List.reverse_nil, List.nil_append,
        List.cons_append] at hmv
      rw [transpose_mk] at hmv
      simp only [Option.map_some', Option.some.injEq, Prod.mk.injEq] at hmv
      obtain ⟨hg, hs, hchg⟩ := hmv
      rw [changed_flag_iff] at hchg
      subst hg
      refine ⟨?_, by simp [GRID_WIDTH], ?_⟩
      · by_cases h1 : (merge_tiles [m, i, e, a]).1.reverse = [a, e, i, m]
        · by_cases h2 : (merge_tiles [n, j, f, b]).1.reverse = [b, f, j, n]
          · by_cases h3 : (merge_tiles [o, k, g, c]).1.reverse = [c, g, k, o]
            · by_cases h4 : (merge_tiles [p, l, h, d]).1.reverse = [d, h, l, p]
              · exfalso
                apply hchg
                rw [hA] at h1
                rw [hB] at h2
                rw [hC] at h3
                rw [hD] at h4
                simp only [List.reverse_cons, List.reverse_nil,
                  List.nil_append, List.cons_append, List.cons.injEq,
                  and_true] at h1 h2 h3 h4
                obtain ⟨rfl, rfl, rfl, rfl⟩ := h1
                obtain ⟨rfl, rfl, rfl, rfl⟩ := h2
                obtain ⟨rfl, rfl, rfl, rfl⟩ := h3
                obtain ⟨rfl, rfl, rfl, rfl⟩ := h4
                rfl
              · have hz := merge_rev_changed_mem_zero d h l p h4
                rw [hD] at hz
                simp only [List.mem_cons, List.not_mem_nil, or_false] at hz
                simp only [List.flatten, List.mem_append]
                rcases hz with h0 | h0 | h0 | h0 <;> simp [← h0]
            · have hz := merge_rev_changed_mem_zero c g k o h3
              rw [hC] at hz
              simp only [List.mem_cons, List.not_mem_nil, or_false] at hz
              simp only [List.flatten, List.mem_append]
              rcases hz with h0 | h0 | h0 | h0 <;> simp [← h0]
          · have hz := merge_rev_changed_mem_zero b f j n h2
            rw [hB] at hz
            simp only [List.mem_cons, List.not_mem_nil, or_false] at hz
            simp only [List.flatten, List.mem_append]
            rcases hz with h0 | h0 | h0 | h0 <;> simp [← h0]
        · have hz := merge_rev_changed_mem_zero a e i m h1
          rw [hA] at hz
          simp only [List.mem_cons, List.not_mem_nil, or_false] at hz
          simp only [List.flatten, List.mem_append]
          rcases hz with h0 | h0 | h0 | h0 <;> simp [← h0]
      · intro r hr
        simp only [List.mem_cons, List.not_mem_nil, or_false] at hr
        rcases hr with rfl | rfl | rfl | rfl <;> simp [GRID_WIDTH]


/-- C2: `add_tile` fails exactly on boards with no empty cell, and that
failure is unreachable through the changed-flag contract: a `move` that
reports changed leaves at least one empty cell, so the subsequent spawn
cannot fail. -/
theorem spawn_safety (a b c d e f g h i j k l m n o p : Nat) :
    (∀ k2 coin,
      (∀ i2, i2 < GRID_WIDTH → ∀ j2, j2 < GRID_WIDTH →
        cellAt (mkBoard a b c d e f g h i j k l m n o p) i2 j2 ≠ 0) →
      add_tile (mkBoard a b c d e f g h i j k l m n o p) k2 coin = none) ∧
    (∀ dir, (dir = 'a' ∨ dir = 'd' ∨ dir = 'w' ∨ dir = 's') →
      ∀ g2 s, move (mkBoard a b c d e f g h i j k l m n o p) dir =
          some (g2, s, true) →
        0 ∈ g2.flatten ∧ ∀ k2 coin, add_tile g2 k2 coin ≠ none) := by
  constructor
  · intro k2 coin hfull
    rw [add_tile_eq_none_iff, List.eq_nil_iff_forall_not_mem]
    rintro ⟨i2, j2⟩ hmem
    rw [mem_emptyTiles] at hmem
    exact hfull i2 hmem.1 j2 hmem.2.1 hmem.2.2
  · intro dir hdir g2 s hmv
    have hzero := changed_move_shape a b c d e f g h i j k l m n o p
      dir hdir g2 s hmv
    exact ⟨hzero.1, fun k2 coin =>
      add_tile_ne_none_of_zero g2 hzero.2.1 hzero.2.2 hzero.1 k2 coin⟩

/-- Witness for C2: a full non-mergeable board makes `add_tile` fail, and a
changed left-move on a sparse board leaves empty cells so `add_tile`
succeeds there. -/
theorem spawn_safety_witness :
    add_tile (mkBoard 2 4 2 4 4 2 4 2 2 4 2 4 4 2 4 2) 0 true = none ∧
    (0 ∈ ([[4, 0, 0, 0], [0, 0, 0, 0], [0, 0, 0, 0], [0, 0, 0, 0]] :
        List (List Nat)).flatten ∧
      ∀ k2 coin,
        add_tile [[4, 0, 0, 0], [0, 0, 0, 0], [0, 0, 0, 0], [0, 0, 0, 0]]
          k2 coin ≠ none) :=
  ⟨(spawn_safety 2 4 2 4 4 2 4 2 2 4 2 4 4 2 4 2).1 0 true (by decide),
   (spawn_safety 2 2 0 0 0 0 0 0 0 0 0 0 0 0 0 0).2 'a' (Or.inl rfl)
     [[4, 0, 0, 0], [0, 0, 0, 0], [0, 0, 0, 0], [0, 0, 0, 0]] 4 (by decide)⟩

/-- C3: the single-pass merge order of `merge_tiles` on the three spec
examples, including the prevention of triple merges and re-merges, with the
score equal to the sum of the values created. -/
theorem merge_tiles_spec_examples :
    merge_tiles [2, 2, 2, 0] = ([4, 2, 0, 0], 4) ∧
    merge_tiles [2, 2, 2, 2] = ([4, 4, 0, 0], 8) ∧
    merge_tiles [0, 0, 2, 2] = ([4, 0, 0, 0], 4) := by
  decide

/-- C6: a direction outside the four recognised characters makes
`move_tiles` a no-op: no spawn, and board, score and high score keep their
prior values. -/
theorem move_tiles_invalid_direction_noop (dir : Char)
    (hdir : ¬(dir = 'w' ∨ dir = 'a' ∨ dir = 's' ∨ dir = 'd'))
    (st : GameState) (k : Nat) (coin : Bool) :
    move_tiles dir st k coin = some st := by
  simp only [move_tiles, hdir, if_false]

/-- Witness for C6 at the unrecognised direction `x`. -/
theorem move_tiles_invalid_direction_noop_witness :
    move_tiles 'x' ⟨mkBoard 2 0 0 0 0 0 0 0 0 0 0 0 0 0 0 0, 5, 7⟩ 3 true =
      some ⟨mkBoard 2 0 0 0 0 0 0 0 0 0 0 0 0 0 0 0, 5, 7⟩ :=
  move_tiles_invalid_direction_noop 'x' (by decide) _ 3 true


/-- C7: the pure move transform conserves the total tile value of the
board; only spawns add value. -/
theorem move_preserves_board_sum (a b c d e f g h i j k l m n o p : Nat)
    (dir : Char) (hdir : dir = 'a' ∨ dir = 'd' ∨ dir = 'w' ∨ dir = 's')
    (g2 : List (List Nat)) (s : Nat) (chg : Bool)
    (hmv : move (mkBoard a b c d e f g h i j k l m n o p) dir =
      some (g2, s, chg)) :
    boardSum g2 = boardSum (mkBoard a b c d e f g h i j k l m n o p) := by
  have hsum : ∀ q1 q2 q3 q4 : Nat,
      (merge_tiles [q1, q2, q3, q4]).1.sum = q1 + q2 + q3 + q4 := by
    intro q1 q2 q3 q4
    rw [merge_tiles_sum]
    simp
    ring
  rcases hdir with rfl | rfl | rfl | rfl
  · simp only [move, mkBoard, move_left, List.map, reduceIte,
      Option.map_some', Option.some.injEq, Prod.mk.injEq] at hmv
    obtain ⟨hg, hs, hchg⟩ := hmv
    subst hg
    simp only [boardSum, mkBoard, List.map, List.sum_cons, List.sum_nil, hsum]
    ring
  · simp only [move, mkBoard, move_right, List.map, reduceIte, Char.reduceEq,
      List.reverse_cons, List.reverse_nil, List.nil_append, List.cons_append,
      Option.map_some', Option.some.injEq, Prod.mk.injEq] at hmv
    obtain ⟨hg, hs, hchg⟩ := hmv
    subst hg
    simp only [boardSum, mkBoard, List.map, List.sum_cons, List.sum_nil,
      List.sum_reverse, hsum]
    ring
  · obtain ⟨a1, a2, a3, a4, hA⟩ := merge_tiles_four a e i m
    obtain ⟨b1, b2, b3, b4, hB⟩ := merge_tiles_four b f j n
    obtain ⟨c1, c2, c3, c4, hC⟩ := merge_tiles_four c g k o
    obtain ⟨d1, d2, d3, d4, hD⟩ := merge_tiles_four d h l p
    have sA : a1 + a2 + a3 + a4 = a + e + i + m := by
      have := hsum a e i m
      rw [hA] at this
      simp at this
      omega
    have sB : b1 + b2 + b3 + b4 = b + f + j + n := by
      have := hsum b f j n
      rw [hB] at this
      simp at this
      omega
    have sC : c1 + c2 + c3 + c4 = c + g + k + o := by
      have := hsum c g k o
      rw [hC] at this
      simp at this
      omega
    have sD : d1 + d2 + d3 + d4 = d + h + l + p := by
      have := hsum d h l p
      rw [hD] at this
      simp at this
      omega
    simp only [move, mkBoard, move_up, reduceIte, Char.reduceEq] at hmv
    rw [transpose_mk] at hmv
    simp only [move_left, List.map] at hmv
    rw [hA, hB, hC, hD, transpose_mk] at hmv
    simp only [Option.map_some', Option.some.injEq, Prod.mk.injEq] at hmv
    obtain ⟨hg, hs, hchg⟩ := hmv
    subst hg
    simp only [boardSum, mkBoard, List.map, List.sum_cons, List.sum_nil]
    omega
  · obtain ⟨a1, a2, a3, a4, hA⟩ := merge_tiles_four m i e a
    obtain ⟨b1, b2, b3, b4, hB⟩ := merge_tiles_four n j f b
    obtain ⟨c1, c2, c3, c4, hC⟩ := merge_tiles_four o k g c
    obtain ⟨d1, d2, d3, d4, hD⟩ := merge_tiles_four p l h d
    have sA : a1 + a2 + a3 + a4 = m + i + e + a := by
      have := hsum m i e a
      rw [hA] at this
      simp at this
      omega
    have sB : b1 + b2 + b3 + b4 = n + j + f + b := by
      have := hsum n j f b
      rw [hB] at this
      simp at this
      omega
    have sC : c1 + c2 + c3 + c4 = o + k + g + c := by
      have := hsum o k g c
      rw [hC] at this
      simp at this
      omega
    have sD : d1 + d2 + d3 + d4 = p + l + h + d := by
      have := hsum p l h d
      rw [hD] at this
      simp at this
      omega
    simp only [move, mkBoard, move_down, reduceIte, Char.reduceEq] at hmv
    rw [transpose_mk] at hmv
    simp only [move_right, List.map, List.reverse_cons, List.reverse_nil,
      List.nil_append, List.cons_append] at hmv
    rw [hA, hB, hC, hD] at hmv
    simp only [List.reverse_cons, List.reverse_nil, List.nil_append,
      List.cons_append] at hmv
    rw [transpose_mk] at hmv
    simp only [Option.map_some', Option.some.injEq, Prod.mk.injEq] at hmv
    obtain ⟨hg, hs, hchg⟩ := hmv
    subst hg
    simp only [boardSum, mkBoard, List.map, List.sum_cons, List.sum_nil]
    omega

/-- Witness for C7 at a merging left-move. -/
theorem move_preserves_board_sum_witness :
    boardSum [[4, 0, 0, 0], [0, 0, 0, 0], [0, 0, 0, 0], [0, 0, 0, 0]] =
      boardSum (mkBoard 2 2 0 0 0 0 0 0 0 0 0 0 0 0 0 0) :=
  move_preserves_board_sum 2 2 0 0 0 0 0 0 0 0 0 0 0 0 0 0 'a' (Or.inl rfl)
    [[4, 0, 0, 0], [0, 0, 0, 0], [0, 0, 0, 0], [0, 0, 0, 0]] 4 true (by decide)


/-- C4: on a valid direction, if `move` reports changed then `move_tiles`
spawns one tile on the returned board, adds the score gain, and raises the
high score exactly when exceeded; if unchanged it spawns nothing and leaves
board, score and high score at their prior values. -/
theorem move_tiles_changed_contract
    (a b c d e f g h i j k l m n o p score high : Nat) (dir : Char)
    (hdir : dir = 'w' ∨ dir = 'a' ∨ dir = 's' ∨ dir = 'd')
    (k : Nat) (coin : Bool) (g2 : List (List Nat)) (s : Nat) (chg : Bool)
    (hmv : move (mkBoard a b c d e f g h i j k l m n o p) dir =
      some (g2, s, chg)) :
    (chg = true →
      ∃ st2, move_tiles dir ⟨mkBoard a b c d e f g h i j k l m n o p,
          score, high⟩ k coin = some st2 ∧
        add_tile g2 k coin = some st2.grid ∧
        st2.score = score + s ∧
        st2.high_score = if score + s > high then score + s else high) ∧
    (chg = false →
      move_tiles dir ⟨mkBoard a b c d e f g h i j k l m n o p,
        score, high⟩ k coin =
        some ⟨mkBoard a b c d e f g h i j k l m n o p, score, high⟩) := by
  have hdir2 : dir = 'a' ∨ dir = 'd' ∨ dir = 'w' ∨ dir = 's' := by tauto
  constructor
  · rintro rfl
    have hshape := changed_move_shape a b c d e f g h i j k l m n o p
      dir hdir2 g2 s hmv
    have hne := add_tile_ne_none_of_zero g2 hshape.2.1 hshape.2.2 hshape.1
      k coin
    obtain ⟨g3, hg3⟩ := Option.ne_none_iff_exists'.mp hne
    refine ⟨⟨g3, score + s, if score + s > high then score + s else high⟩,
      ?_, ?_, rfl, rfl⟩
    · simp only [move_tiles, hdir, if_pos]
      rw [hmv]
      simp [hg3]
    · exact hg3
  · rintro rfl
    have hflag := move_changed_flag_iff a b c d e f g h i j k l m n o p
      dir hdir2 g2 s false hmv
    have hgeq : g2 = mkBoard a b c d e f g h i j k l m n o p := by
      by_contra hne2
      have := hflag.mpr hne2
      simp at this
    subst hgeq
    simp only [move_tiles, hdir, if_pos]
    rw [hmv]
    simp

/-- Witness for C4 at a merging left-move from score 10, high score 11. -/
theorem move_tiles_changed_contract_witness :
    (true = true →
      ∃ st2, move_tiles 'a' ⟨mkBoard 2 2 0 0 0 0 0 0 0 0 0 0 0 0 0 0,
          10, 11⟩ 0 true = some st2 ∧
        add_tile [[4, 0, 0, 0], [0, 0, 0, 0], [0, 0, 0, 0], [0, 0, 0, 0]]
          0 true = some st2.grid ∧
        st2.score = 10 + 4 ∧
        st2.high_score = if 10 + 4 > 11 then 10 + 4 else 11) ∧
    (true = false →
      move_tiles 'a' ⟨mkBoard 2 2 0 0 0 0 0 0 0 0 0 0 0 0 0 0,
        10, 11⟩ 0 true =
        some ⟨mkBoard 2 2 0 0 0 0 0 0 0 0 0 0 0 0 0 0, 10, 11⟩) :=
  move_tiles_changed_contract 2 2 0 0 0 0 0 0 0 0 0 0 0 0 0 0 10 11 'a'
    (Or.inr (Or.inl rfl)) 0 true
    [[4, 0, 0, 0], [0, 0, 0, 0], [0, 0, 0, 0], [0, 0, 0, 0]] 4 true
    (by decide)


/-- Setting an entry of a list rewrites its sum by the difference. -/
theorem sum_set_add (l : List Nat) (i : Nat) (a : Nat) (hi : i < l.length) :
    (l.set i a).sum + l[i] = l.sum + a := by
  induction l generalizing i with
  | nil => simp at hi
  | cons x rest ih =>
    cases i with
    | zero => simp [List.set]; omega
    | succ n =>
      simp only [List.set, List.sum_cons, List.getElem_cons_succ]
      have := ih n (by simpa using hi)
      omega

/-- Overwriting a zero entry with a nonzero value adds one nonzero entry. -/
theorem filter_length_set_zero (r : List Nat) (j v : Nat) (hj : j < r.length)
    (h0 : r[j] = 0) (hv : v ≠ 0) :
    ((r.set j v).filter (fun x => x ≠ 0)).length =
      (r.filter (fun x => x ≠ 0)).length + 1 := by
  induction r generalizing j with
  | nil => simp at hj
  | cons x rest ih =>
    cases j with
    | zero =>
      simp only [List.getElem_cons_zero] at h0
      subst h0
      rw [List.set]
      rw [filter_cons_zero, filter_cons_nonzero v rest hv]
      simp
    | succ n =>
      simp only [List.getElem_cons_succ] at h0
      have hn : n < rest.length := by simpa using hj
      rw [List.set]
      by_cases hx : x = 0
      · subst hx
        rw [filter_cons_zero, filter_cons_zero]
        exact ih n hn h0
      · rw [filter_cons_nonzero x _ hx, filter_cons_nonzero x rest hx]
        simp only [List.length_cons]
        rw [ih n hn h0]

/-- Writing a nonzero value into an empty in-range cell increments the
nonzero-cell count. -/
theorem countNonzero_setCell (g : List (List Nat)) (i j v : Nat)
    (hi : i < g.length) (hj : j < (g.getD i []).length)
    (h0 : cellAt g i j = 0) (hv : v ≠ 0) :
    countNonzero (setCell g i j v) = countNonzero g + 1 := by
  simp only [countNonzero, setCell]
  rw [List.map_set]
  have hrow : g.getD i [] = g[i] := List.getD_eq_getElem g [] hi
  have hmap : i < (g.map (fun row => (row.filter (fun x => x ≠ 0)).length)).length := by
    simpa using hi
  have hs := sum_set_add
    (g.map (fun row => (row.filter (fun x => x ≠ 0)).length)) i
    (((g.getD i []).set j v).filter (fun x => x ≠ 0)).length hmap
  rw [List.getElem_map, ← hrow] at hs
  have h0g : (g.getD i [])[j] = 0 := by
    rw [← List.getD_eq_getElem (g.getD i []) 0 hj]
    exact h0
  rw [filter_length_set_zero (g.getD i []) j v hj h0g hv] at hs ⊢
  omega

/-- `setCell` leaves every other cell unchanged. -/
theorem cellAt_setCell_other (g : List (List Nat)) (i j v i2 j2 : Nat)
    (hne : i2 ≠ i ∨ j2 ≠ j) :
    cellAt (setCell g i j v) i2 j2 = cellAt g i2 j2 := by
  simp only [cellAt, setCell]
  by_cases hii : i2 = i
  · subst hii
    rcases hne with hne | hne
    · exact absurd rfl hne
    · by_cases hi : i2 < g.length
      · have hl1 : i2 < (g.set i2 ((g.getD i2 []).set j v)).length := by
          rw [List.length_set]; exact hi
        rw [List.getD_eq_getElem _ [] hl1]
        rw [List.getElem_set_self hl1]
        rw [List.getD_eq_getElem g [] hi]
        by_cases hj2 : j2 < (g[i2]).length
        · have hl2 : j2 < ((g[i2]).set j v).length := by
            rw [List.length_set]; exact hj2
          rw [List.getD_eq_getElem _ 0 hl2]
          rw [List.getElem_set_ne (by omega)]
          rw [List.getD_eq_getElem _ 0 hj2]
        · rw [List.getD_eq_default _ 0 (by rw [List.length_set]; omega),
            List.getD_eq_default _ 0 (by omega)]
      · rw [List.getD_eq_default _ [] (by rw [List.length_set]; omega),
          List.getD_eq_default _ [] (by omega)]
  · by_cases hi : i2 < g.length
    · have hl1 : i2 < (g.set i ((g.getD i []).set j v)).length := by
        rw [List.length_set]; exact hi
      rw [List.getD_eq_getElem _ [] hl1]
      rw [List.getElem_set_ne (by omega)]
      rw [← List.getD_eq_getElem g [] hi]
    · rw [List.getD_eq_default _ [] (by rw [List.length_set]; omega),
        List.getD_eq_default _ [] (by omega)]
/-- A successful `add_tile` writes 2 or 4 into one cell drawn from the empty
cells. -/
theorem add_tile_some_spec (g : List (List Nat)) (k : Nat) (coin : Bool)
    (g2 : List (List Nat)) (h : add_tile g k coin = some g2) :
    ∃ i j, (i, j) ∈ emptyTiles g ∧
      g2 = setCell g i j (if coin then 2 else 4) := by
  by_cases hemp : (emptyTiles g).isEmpty
  · simp [add_tile, hemp] at h
  · have hlen : emptyTiles g ≠ [] := by
      intro hnil
      exact hemp (by simp [hnil])
    have hpos : (emptyTiles g).length ≠ 0 := by
      simpa [List.length_eq_zero] using hlen
    have hmod : k % (emptyTiles g).length < (emptyTiles g).length :=
      Nat.mod_lt _ (Nat.pos_of_ne_zero hpos)
    have hmem : (emptyTiles g).getD (k % (emptyTiles g).length) (0, 0) ∈
        emptyTiles g := by
      rw [List.getD_eq_getElem _ _ hmod]
      exact List.getElem_mem _
    have heq : add_tile g k coin =
        some (setCell g
          ((emptyTiles g).getD (k % (emptyTiles g).length) (0, 0)).1
          ((emptyTiles g).getD (k % (emptyTiles g).length) (0, 0)).2
          (if coin then 2 else 4)) := by
      simp only [add_tile, hemp, Bool.false_eq_true, if_false]
    rw [heq, Option.some.injEq] at h
    exact ⟨_, _, by simpa using hmem, h.symm⟩

/-- `setCell` preserves the number of rows. -/
theorem length_setCell (g : List (List Nat)) (i j v : Nat) :
    (setCell g i j v).length = g.length := by
  simp [setCell]

/-- `setCell` preserves the rows\' lengths. -/
theorem rows_length_setCell (g : List (List Nat)) (i j v : Nat)
    (hi : i < g.length)
    (hrows : ∀ r ∈ g, r.length = GRID_WIDTH) :
    ∀ r ∈ setCell g i j v, r.length = GRID_WIDTH := by
  intro r hr
  rcases List.mem_or_eq_of_mem_set hr with h | h
  · exact hrows r h
  · rw [h, List.length_set, List.getD_eq_getElem g [] hi]
    exact hrows _ (List.getElem_mem _)

/-- Cells after `setCell` are old cells or the written value. -/
theorem mem_flatten_setCell (g : List (List Nat)) (i j v : Nat)
    (x : Nat) (hx : x ∈ (setCell g i j v).flatten) :
    x ∈ g.flatten ∨ x = v := by
  obtain ⟨r, hr, hxr⟩ := List.mem_flatten.mp hx
  rcases List.mem_or_eq_of_mem_set hr with h | h
  · exact Or.inl (List.mem_flatten.mpr ⟨r, h, hxr⟩)
  · subst h
    rcases List.mem_or_eq_of_mem_set hxr with h2 | h2
    · by_cases hi : i < g.length
      · left
        apply List.mem_flatten.mpr
        refine ⟨g.getD i [], ?_, h2⟩
        rw [List.getD_eq_getElem g [] hi]
        exact List.getElem_mem _
      · rw [List.getD_eq_default _ [] (by omega)] at h2
        simp at h2
    · exact Or.inr h2
/-- C8: `restart_game` resets the score to 0, keeps the high score, and the
fresh board carries exactly two nonzero tiles, each 2 or 4. -/
theorem restart_game_spec (st : GameState) (k1 : Nat) (c1 : Bool)
    (k2 : Nat) (c2 : Bool) :
    ∃ st2, restart_game st k1 c1 k2 c2 = some st2 ∧
      st2.score = 0 ∧ st2.high_score = st.high_score ∧
      countNonzero st2.grid = 2 ∧
      ∀ x ∈ st2.grid.flatten, x = 0 ∨ x = 2 ∨ x = 4 := by
  have hrows0 : ∀ r ∈ List.replicate GRID_WIDTH (List.replicate GRID_WIDTH (0 : Nat)),
      r.length = GRID_WIDTH := by
    intro r hr
    rw [List.eq_of_mem_replicate hr]
    exact List.length_replicate _ _
  have h1ne : add_tile (List.replicate GRID_WIDTH (List.replicate GRID_WIDTH 0)) k1 c1 ≠ none := by
    rw [Ne, add_tile_eq_none_iff]
    decide
  obtain ⟨g1, hg1⟩ := Option.ne_none_iff_exists'.mp h1ne
  obtain ⟨i1, j1, hmem1, hset1⟩ := add_tile_some_spec _ k1 c1 g1 hg1
  rw [mem_emptyTiles] at hmem1
  obtain ⟨hi1, hj1, hc1⟩ := hmem1
  have hlen0 : (List.replicate GRID_WIDTH (List.replicate GRID_WIDTH (0 : Nat))).length = GRID_WIDTH :=
    List.length_replicate _ _
  have hrow0 : (List.replicate GRID_WIDTH (List.replicate GRID_WIDTH (0 : Nat))).getD i1 [] =
      List.replicate GRID_WIDTH 0 := by
    rw [List.getD_eq_getElem _ [] (by omega)]
    exact List.getElem_replicate ..
  have hv1 : (if c1 then (2 : Nat) else 4) ≠ 0 := by
    cases c1 <;> simp
  have hcount1 : countNonzero g1 = 1 := by
    rw [hset1, countNonzero_setCell _ _ _ _ (by omega) (by rw [hrow0]; simpa using hj1) hc1 hv1]
    norm_num [countNonzero]
  -- a second empty cell survives in g1
  have hi2def : (if i1 = 0 then 1 else 0) ≠ i1 := by
    split_ifs with h <;> omega
  have hcell2 : cellAt g1 (if i1 = 0 then 1 else 0) j1 = 0 := by
    rw [hset1, cellAt_setCell_other _ _ _ _ _ _ (Or.inl hi2def)]
    simp only [cellAt]
    rw [List.getD_eq_getElem _ []
      (by simp only [List.length_replicate]; split_ifs <;> simp [GRID_WIDTH])]
    rw [List.getElem_replicate]
    rw [List.getD_eq_getElem _ 0 (by simpa using hj1)]
    exact List.getElem_replicate ..
  have h2ne : add_tile g1 k2 c2 ≠ none := by
    rw [Ne, add_tile_eq_none_iff]
    intro hnil
    have : ((if i1 = 0 then 1 else 0), j1) ∈ emptyTiles g1 := by
      rw [mem_emptyTiles]
      exact ⟨by split_ifs <;> simp [GRID_WIDTH], hj1, hcell2⟩
    rw [hnil] at this
    simp at this
  obtain ⟨g2, hg2⟩ := Option.ne_none_iff_exists'.mp h2ne
  obtain ⟨i2, j2, hmem2, hset2⟩ := add_tile_some_spec _ k2 c2 g2 hg2
  rw [mem_emptyTiles] at hmem2
  obtain ⟨hi2, hj2, hc2⟩ := hmem2
  have hlen1 : g1.length = GRID_WIDTH := by
    rw [hset1, length_setCell, hlen0]
  have hrows1 : ∀ r ∈ g1, r.length = GRID_WIDTH := by
    rw [hset1]
    exact rows_length_setCell _ _ _ _ (by omega) hrows0
  have hrow1 : (g1.getD i2 []).length = GRID_WIDTH := by
    rw [List.getD_eq_getElem g1 [] (by omega)]
    exact hrows1 _ (List.getElem_mem _)
  have hv2 : (if c2 then (2 : Nat) else 4) ≠ 0 := by
    cases c2 <;> simp
  have hcount2 : countNonzero g2 = 2 := by
    rw [hset2, countNonzero_setCell _ _ _ _ (by omega) (by rw [hrow1]; exact hj2) hc2 hv2,
      hcount1]
  have hnew : new_game k1 c1 k2 c2 = some g2 := by
    simp only [new_game, hg1, hg2]
  refine ⟨⟨g2, 0, st.high_score⟩, ?_, rfl, rfl, hcount2, ?_⟩
  · simp only [restart_game, hnew]
  · intro x hx
    rw [hset2] at hx
    rcases mem_flatten_setCell _ _ _ _ _ hx with hx1 | hx1
    · rw [hset1] at hx1
      rcases mem_flatten_setCell _ _ _ _ _ hx1 with hx0 | hx0
      · left
        obtain ⟨r, hr, hxr⟩ := List.mem_flatten.mp hx0
        rw [List.eq_of_mem_replicate hr] at hxr
        exact List.eq_of_mem_replicate hxr
      · subst hx0
        cases c1
        · right; right; rfl
        · right; left; rfl
    · subst hx1
      cases c2
      · right; right; rfl
      · right; left; rfl

/-- Every cell of a `new_game` board is 0, 2 or 4. -/
theorem new_game_cells (k1 : Nat) (c1 : Bool) (k2 : Nat) (c2 : Bool)
    (g : List (List Nat)) (hnew : new_game k1 c1 k2 c2 = some g) :
    ∀ x ∈ g.flatten, x = 0 ∨ x = 2 ∨ x = 4 := by
  intro x hx
  cases heq1 : add_tile (List.replicate GRID_WIDTH (List.replicate GRID_WIDTH 0)) k1 c1 with
  | none => simp [new_game, heq1] at hnew
  | some g1 =>
    have heq2 : add_tile g1 k2 c2 = some g := by
      simpa [new_game, heq1] using hnew
    obtain ⟨i1, j1, _, hset1⟩ := add_tile_some_spec _ k1 c1 g1 heq1
    obtain ⟨i2, j2, _, hset2⟩ := add_tile_some_spec _ k2 c2 g heq2
    rw [hset2] at hx
    rcases mem_flatten_setCell _ _ _ _ _ hx with hx1 | hx1
    · rw [hset1] at hx1
      rcases mem_flatten_setCell _ _ _ _ _ hx1 with hx0 | hx0
      · left
        obtain ⟨r, hr, hxr⟩ := List.mem_flatten.mp hx0
        rw [List.eq_of_mem_replicate hr] at hxr
        exact List.eq_of_mem_replicate hxr
      · subst hx0
        cases c1
        · right; right; rfl
        · right; left; rfl
    · subst hx1
      cases c2
      · right; right; rfl
      · right; left; rfl

set_option maxHeartbeats 1000000 in
/-- C9: the board well-formedness invariant (every cell 0 or a power of
2 that is at least 2) is preserved by `move` in every valid direction,
`add_tile` writes only 2 or 4 into an empty cell, and `new_game` boards
satisfy the invariant. -/
theorem board_invariant_preserved (a b c d e f g h i j k l m n o p : Nat) :
    (∀ dir, (dir = 'a' ∨ dir = 'd' ∨ dir = 'w' ∨ dir = 's') →
      (∀ x ∈ (mkBoard a b c d e f g h i j k l m n o p).flatten, IsTile x) →
      ∀ g2 s chg, move (mkBoard a b c d e f g h i j k l m n o p) dir =
          some (g2, s, chg) →
        ∀ x ∈ g2.flatten, IsTile x) ∧
    (∀ grid k2 coin g2, add_tile grid k2 coin = some g2 →
      ∃ i2 j2, i2 < GRID_WIDTH ∧ j2 < GRID_WIDTH ∧ cellAt grid i2 j2 = 0 ∧
        (g2 = setCell grid i2 j2 2 ∨ g2 = setCell grid i2 j2 4)) ∧
    (∀ k1 c1 k2 c2 g2, new_game k1 c1 k2 c2 = some g2 →
      ∀ x ∈ g2.flatten, IsTile x) := by
  refine ⟨?_, ?_, ?_⟩
  · intro dir hdir hinv g2 s chg hmv
    have hA4 : ∀ x ∈ [a, b, c, d], IsTile x := by
      intro x hx
      apply hinv
      simp only [mkBoard, List.flatten_cons, List.flatten_nil, List.append_nil,
        List.mem_append, List.mem_cons, List.not_mem_nil, or_false] at hx ⊢
      tauto
    have hB4 : ∀ x ∈ [e, f, g, h], IsTile x := by
      intro x hx
      apply hinv
      simp only [mkBoard, List.flatten_cons, List.flatten_nil, List.append_nil,
        List.mem_append, List.mem_cons, List.not_mem_nil, or_false] at hx ⊢
      tauto
    have hC4 : ∀ x ∈ [i, j, k, l], IsTile x := by
      intro x hx
      apply hinv
      simp only [mkBoard, List.flatten_cons, List.flatten_nil, List.append_nil,
        List.mem_append, List.mem_cons, List.not_mem_nil, or_false] at hx ⊢
      tauto
    have hD4 : ∀ x ∈ [m, n, o, p], IsTile x := by
      intro x hx
      apply hinv
      simp only [mkBoard, List.flatten_cons, List.flatten_nil, List.append_nil,
        List.mem_append, List.mem_cons, List.not_mem_nil, or_false] at hx ⊢
      tauto
    have hCol1 : ∀ x ∈ [a, e, i, m], IsTile x := by
      intro x hx
      apply hinv
      simp only [mkBoard, List.flatten_cons, List.flatten_nil, List.append_nil,
        List.mem_append, List.mem_cons, List.not_mem_nil, or_false] at hx ⊢
      tauto
    have hCol2 : ∀ x ∈ [b, f, j, n], IsTile x := by
      intro x hx
      apply hinv
      simp only [mkBoard, List.flatten_cons, List.flatten_nil, List.append_nil,
        List.mem_append, List.mem_cons, List.not_mem_nil, or_false] at hx ⊢
      tauto
    have hCol3 : ∀ x ∈ [c, g, k, o], IsTile x := by
      intro x hx
      apply hinv
      simp only [mkBoard, List.flatten_cons, List.flatten_nil, List.append_nil,
        List.mem_append, List.mem_cons, List.not_mem_nil, or_false] at hx ⊢
      tauto
    have hCol4 : ∀ x ∈ [d, h, l, p], IsTile x := by
      intro x hx
      apply hinv
      simp only [mkBoard, List.flatten_cons, List.flatten_nil, List.append_nil,
        List.mem_append, List.mem_cons, List.not_mem_nil, or_false] at hx ⊢
      tauto
    rcases hdir with rfl | rfl | rfl | rfl
    · simp only [move, mkBoard, move_left, List.map, reduceIte,
        Option.map_some', Option.some.injEq, Prod.mk.injEq] at hmv
      obtain ⟨hg, hs2, hchg⟩ := hmv
      subst hg
      intro x hx
      simp only [List.flatten_cons, List.flatten_nil, List.mem_append,
        List.append_nil, List.not_mem_nil, or_false] at hx
      rcases hx with hx | hx | hx | hx
      · exact merge_tiles_isTile _ hA4 x hx
      · exact merge_tiles_isTile _ hB4 x hx
      · exact merge_tiles_isTile _ hC4 x hx
      · exact merge_tiles_isTile _ hD4 x hx
    · simp only [move, mkBoard, move_right, List.map, reduceIte, Char.reduceEq,
        List.reverse_cons, List.reverse_nil, List.nil_append, List.cons_append,
        Option.map_some', Option.some.injEq, Prod.mk.injEq] at hmv
      obtain ⟨hg, hs2, hchg⟩ := hmv
      subst hg
      intro x hx
      simp only [List.flatten_cons, List.flatten_nil, List.mem_append,
        List.append_nil, List.mem_reverse, List.not_mem_nil, or_false] at hx
      rcases hx with hx | hx | hx | hx
      · refine merge_tiles_isTile _ ?_ x hx
        intro t ht
        apply hA4
        simp only [List.mem_cons, List.not_mem_nil, or_false] at ht ⊢
        tauto
      · refine merge_tiles_isTile _ ?_ x hx
        intro t ht
        apply hB4
        simp only [List.mem_cons, List.not_mem_nil, or_false] at ht ⊢
        tauto
      · refine merge_tiles_isTile _ ?_ x hx
        intro t ht
        apply hC4
        simp only [List.mem_cons, List.not_mem_nil, or_false] at ht ⊢
        tauto
      · refine merge_tiles_isTile _ ?_ x hx
        intro t ht
        apply hD4
        simp only [List.mem_cons, List.not_mem_nil, or_false] at ht ⊢
        tauto
    · obtain ⟨a1, a2, a3, a4, hA⟩ := merge_tiles_four a e i m
      obtain ⟨b1, b2, b3, b4, hB⟩ := merge_tiles_four b f j n
      obtain ⟨c1, c2, c3, c4, hC⟩ := merge_tiles_four c g k o
      obtain ⟨d1, d2, d3, d4, hD⟩ := merge_tiles_four d h l p
      have tA : ∀ x ∈ [a1, a2, a3, a4], IsTile x := by
        rw [← hA]; exact merge_tiles_isTile _ hCol1
      have tB : ∀ x ∈ [b1, b2, b3, b4], IsTile x := by
        rw [← hB]; exact merge_tiles_isTile _ hCol2
      have tC : ∀ x ∈ [c1, c2, c3, c4], IsTile x := by
        rw [← hC]; exact merge_tiles_isTile _ hCol3
      have tD : ∀ x ∈ [d1, d2, d3, d4], IsTile x := by
        rw [← hD]; exact merge_tiles_isTile _ hCol4
      simp only [move, mkBoard, move_up, reduceIte, Char.reduceEq] at hmv
      rw [transpose_mk] at hmv
      simp only [move_left, List.map] at hmv
      rw [hA, hB, hC, hD, transpose_mk] at hmv
      simp only [Option.map_some', Option.some.injEq, Prod.mk.injEq] at hmv
      obtain ⟨hg, hs2, hchg⟩ := hmv
      subst hg
      intro x hx
      simp only [List.flatten_cons, List.flatten_nil, List.mem_append,
        List.append_nil, List.mem_cons, List.not_mem_nil, or_false] at hx
      rcases hx with (rfl | rfl | rfl | rfl) | (rfl | rfl | rfl | rfl) |
        (rfl | rfl | rfl | rfl) | (rfl | rfl | rfl | rfl)
      · exact tA _ (by simp)
      · exact tB _ (by simp)
      · exact tC _ (by simp)
      · exact tD _ (by simp)
      · exact tA _ (by simp)
      · exact tB _ (by simp)
      · exact tC _ (by simp)
      · exact tD _ (by simp)
      · exact tA _ (by simp)
      · exact tB _ (by simp)
      · exact tC _ (by simp)
      · exact tD _ (by simp)
      · exact tA _ (by simp)
      · exact tB _ (by simp)
      · exact tC _ (by simp)
      · exact tD _ (by simp)
    · obtain ⟨a1, a2, a3, a4, hA⟩ := merge_tiles_four m i e a
      obtain ⟨b1, b2, b3, b4, hB⟩ := merge_tiles_four n j f b
      obtain ⟨c1, c2, c3, c4, hC⟩ := merge_tiles_four o k g c
      obtain ⟨d1, d2, d3, d4, hD⟩ := merge_tiles_four p l h d
      have tA : ∀ x ∈ [a1, a2, a3, a4], IsTile x := by
        rw [← hA]
        refine merge_tiles_isTile _ ?_
        intro t ht
        apply hCol1
        simp only [List.mem_cons, List.not_mem_nil, or_false] at ht ⊢
        tauto
      have tB : ∀ x ∈ [b1, b2, b3, b4], IsTile x := by
        rw [← hB]
        refine merge_tiles_isTile _ ?_
        intro t ht
        apply hCol2
        simp only [List.mem_cons, List.not_mem_nil, or_false] at ht ⊢
        tauto
      have tC : ∀ x ∈ [c1, c2, c3, c4], IsTile x := by
        rw [← hC]
        refine merge_tiles_isTile _ ?_
        intro t ht
        apply hCol3
        simp only [List.mem_cons, List.not_mem_nil, or_false] at ht ⊢
        tauto
      have tD : ∀ x ∈ [d1, d2, d3, d4], IsTile x := by
        rw [← hD]
        refine merge_tiles_isTile _ ?_
        intro t ht
        apply hCol4
        simp only [List.mem_cons, List.not_mem_nil, or_false] at ht ⊢
        tauto
      simp only [move, mkBoard, move_down, reduceIte, Char.reduceEq] at hmv
      rw [transpose_mk] at hmv
      simp only [move_right, List.map, List.reverse_cons, List.reverse_nil,
        List.nil_append, List.cons_append] at hmv
      rw [hA, hB, hC, hD] at hmv
      simp only [List.reverse_cons, List.reverse_nil, List.nil_append,
        List.cons_append] at hmv
      rw [transpose_mk] at hmv
      simp only [Option.map_some', Option.some.injEq, Prod.mk.injEq] at hmv
      obtain ⟨hg, hs2, hchg⟩ := hmv
      subst hg
      intro x hx
      simp only [List.flatten_cons, List.flatten_nil, List.mem_append,
        List.append_nil, List.mem_cons, List.not_mem_nil, or_false] at hx
      rcases hx with (rfl | rfl | rfl | rfl) | (rfl | rfl | rfl | rfl) |
        (rfl | rfl | rfl | rfl) | (rfl | rfl | rfl | rfl)
      · exact tA _ (by simp)
      · exact tB _ (by simp)
      · exact tC _ (by simp)
      · exact tD _ (by simp)
      · exact tA _ (by simp)
      · exact tB _ (by simp)
      · exact tC _ (by simp)
      · exact tD _ (by simp)
      · exact tA _ (by simp)
      · exact tB _ (by simp)
      · exact tC _ (by simp)
      · exact tD _ (by simp)
      · exact tA _ (by simp)
      · exact tB _ (by simp)
      · exact tC _ (by simp)
      · exact tD _ (by simp)
  · intro grid k2 coin g2 hadd
    obtain ⟨i2, j2, hmem, hset⟩ := add_tile_some_spec grid k2 coin g2 hadd
    rw [mem_emptyTiles] at hmem
    refine ⟨i2, j2, hmem.1, hmem.2.1, hmem.2.2, ?_⟩
    cases coin
    · right; simpa using hset
    · left; simpa using hset
  · intro k1 c1 k2 c2 g2 hnew x hx
    rcases new_game_cells k1 c1 k2 c2 g2 hnew x hx with rfl | rfl | rfl
    · exact Or.inl rfl
    · exact Or.inr ⟨1, le_refl 1, rfl⟩
    · exact Or.inr ⟨2, by omega, rfl⟩
/-- Witness for C9: a concrete merging move, a concrete spawn, and a
concrete fresh board. -/
theorem board_invariant_preserved_witness :
    (∀ x ∈ ([[4, 0, 0, 0], [0, 0, 0, 0], [0, 0, 0, 0], [0, 0, 0, 0]] :
        List (List Nat)).flatten, IsTile x) ∧
    (∃ i2 j2, i2 < GRID_WIDTH ∧ j2 < GRID_WIDTH ∧
      cellAt (mkBoard 2 0 0 0 0 0 0 0 0 0 0 0 0 0 0 0) i2 j2 = 0 ∧
      (([[2, 2, 0, 0], [0, 0, 0, 0], [0, 0, 0, 0], [0, 0, 0, 0]] :
          List (List Nat)) =
        setCell (mkBoard 2 0 0 0 0 0 0 0 0 0 0 0 0 0 0 0) i2 j2 2 ∨
       ([[2, 2, 0, 0], [0, 0, 0, 0], [0, 0, 0, 0], [0, 0, 0, 0]] :
          List (List Nat)) =
        setCell (mkBoard 2 0 0 0 0 0 0 0 0 0 0 0 0 0 0 0) i2 j2 4)) ∧
    (∀ x ∈ ([[2, 2, 0, 0], [0, 0, 0, 0], [0, 0, 0, 0], [0, 0, 0, 0]] :
        List (List Nat)).flatten, IsTile x) :=
  ⟨(board_invariant_preserved 2 2 0 0 0 0 0 0 0 0 0 0 0 0 0 0).1 'a'
      (Or.inl rfl)
      (by
        intro x hx
        have h2 : x = 2 ∨ x = 0 := by
          simpa [mkBoard] using hx
        rcases h2 with rfl | rfl
        · exact Or.inr ⟨1, le_refl 1, rfl⟩
        · exact Or.inl rfl)
      [[4, 0, 0, 0], [0, 0, 0, 0], [0, 0, 0, 0], [0, 0, 0, 0]] 4 true
      (by decide),
   (board_invariant_preserved 2 0 0 0 0 0 0 0 0 0 0 0 0 0 0 0).2.1
      (mkBoard 2 0 0 0 0 0 0 0 0 0 0 0 0 0 0 0) 0 true
      [[2, 2, 0, 0], [0, 0, 0, 0], [0, 0, 0, 0], [0, 0, 0, 0]]
      (by decide),
   (board_invariant_preserved 0 0 0 0 0 0 0 0 0 0 0 0 0 0 0 0).2.2
      0 true 0 true
      [[2, 2, 0, 0], [0, 0, 0, 0], [0, 0, 0, 0], [0, 0, 0, 0]]
      (by decide)⟩

/-- One coordinator step keeps the score bounded by the high score. -/
theorem step_preserves_score_le (st : GameState)
    (hinv : st.score ≤ st.high_score) (op : Op) (st2 : GameState)
    (hstep : step st op = some st2) : st2.score ≤ st2.high_score := by
  cases op with
  | moveOp d k coin =>
    simp only [step, move_tiles] at hstep
    split_ifs at hstep with hd
    · cases hmv : move st.grid d with
      | none => rw [hmv] at hstep; simp at hstep
      | some res =>
        obtain ⟨g2, s2, chg⟩ := res
        rw [hmv] at hstep
        by_cases hchg : chg = true
        · subst hchg
          simp only [if_true, reduceIte] at hstep
          cases hadd : add_tile g2 k coin with
          | none => rw [hadd] at hstep; simp at hstep
          | some g3 =>
            rw [hadd] at hstep
            rw [Option.some.injEq] at hstep
            subst hstep
            simp only
            split_ifs with hgt
            · exact le_refl _
            · omega
        · simp only [Bool.not_eq_true] at hchg
          subst hchg
          simp only [Bool.false_eq_true, if_false] at hstep
          rw [Option.some.injEq] at hstep
          subst hstep
          exact hinv
    · rw [Option.some.injEq] at hstep
      subst hstep
      exact hinv
  | restartOp k1 c1 k2 c2 =>
    simp only [step, restart_game] at hstep
    cases hn : new_game k1 c1 k2 c2 with
    | none => rw [hn] at hstep; simp at hstep
    | some g =>
      rw [hn] at hstep
      rw [Option.some.injEq] at hstep
      subst hstep
      exact Nat.zero_le _

/-- C10: from the initial session state (score 0, high score 0), every
sequence of `move_tiles` and `restart_game` operations leaves the
cumulative score at most the high score. -/
theorem score_le_high_score_reachable (g0 : List (List Nat)) (ops : List Op)
    (st2 : GameState) (hrun : runOps ⟨g0, 0, 0⟩ ops = some st2) :
    st2.score ≤ st2.high_score := by
  have main : ∀ (ops : List Op) (st : GameState),
      st.score ≤ st.high_score → ∀ st2, runOps st ops = some st2 →
      st2.score ≤ st2.high_score := by
    intro ops
    induction ops with
    | nil =>
      intro st hst st2 h
      simp only [runOps, Option.some.injEq] at h
      subst h
      exact hst
    | cons op rest ih =>
      intro st hst st2 h
      simp only [runOps] at h
      cases hs : step st op with
      | none => rw [hs] at h; simp at h
      | some stm =>
        rw [hs] at h
        exact ih stm (step_preserves_score_le st hst op stm hs) st2 h
  exact main ops ⟨g0, 0, 0⟩ (le_refl 0) st2 hrun
/-- Witness for C10 after one scoring move from a fresh session. -/
theorem score_le_high_score_reachable_witness :
    (GameState.mk [[4, 2, 0, 0], [0, 0, 0, 0], [0, 0, 0, 0], [0, 0, 0, 0]]
        4 4).score ≤
      (GameState.mk [[4, 2, 0, 0], [0, 0, 0, 0], [0, 0, 0, 0], [0, 0, 0, 0]]
        4 4).high_score :=
  score_le_high_score_reachable
    [[2, 2, 0, 0], [0, 0, 0, 0], [0, 0, 0, 0], [0, 0, 0, 0]]
    [Op.moveOp 'a' 0 true]
    ⟨[[4, 2, 0, 0], [0, 0, 0, 0], [0, 0, 0, 0], [0, 0, 0, 0]], 4, 4⟩
    (by decide)

set_option maxHeartbeats 1000000 in
/-- `is_game_over` on a 4×4 board decides exactly the spec predicate: no
empty cell and no equal horizontally- or vertically-adjacent pair. -/
theorem is_game_over_mk_iff (a b c d e f g h i j k l m n o p : Nat) :
    is_game_over (mkBoard a b c d e f g h i j k l m n o p) = true ↔
      NoEmptyNoAdjacent (mkBoard a b c d e f g h i j k l m n o p) := by
  simp only [is_game_over, NoEmptyNoAdjacent, mkBoard, transpose_mk,
    lineHasMove, List.dropLast, List.drop, List.zip, List.zipWith,
    List.any_cons, List.any_nil, List.flatten_cons, List.flatten_nil,
    List.append_nil, List.mem_append, List.mem_cons, List.not_mem_nil,
    or_false, List.forall_mem_cons, List.forall_mem_nil, and_true,
    List.chain'_cons, List.chain'_singleton, Bool.or_eq_true,
    decide_eq_true_eq, Bool.not_eq_true', Bool.or_eq_false_iff,
    decide_eq_false_iff_not, forall_eq_or_imp, forall_eq]
  constructor
  · intro hcode
    push_neg at hcode
    obtain ⟨⟨⟨⟨hab, ha0, hb0⟩, ⟨hbc, _, hc0⟩, ⟨hcd, _, hd0⟩⟩,
        ⟨⟨hef, he0, hf0⟩, ⟨hfg, _, hg0⟩, ⟨hgh, _, hh0⟩⟩,
        ⟨⟨hij, hi0, hj0⟩, ⟨hjk, _, hk0⟩, ⟨hkl, _, hl0⟩⟩,
        ⟨hmn, hm0, hn0⟩, ⟨hno, _, ho0⟩, ⟨hop, _, hp0⟩⟩,
      ⟨⟨hae, _, _⟩, ⟨hei, _, _⟩, ⟨him, _, _⟩⟩,
      ⟨⟨hbf, _, _⟩, ⟨hfj, _, _⟩, ⟨hjn, _, _⟩⟩,
      ⟨⟨hcg, _, _⟩, ⟨hgk, _, _⟩, ⟨hko, _, _⟩⟩,
      ⟨hdh, _, _⟩, ⟨hhl, _, _⟩, ⟨hlp, _, _⟩⟩ := hcode
    refine ⟨?_, ⟨⟨hab, hbc, hcd⟩, ⟨hef, hfg, hgh⟩, ⟨hij, hjk, hkl⟩,
        hmn, hno, hop⟩,
      ⟨hae, hei, him⟩, ⟨hbf, hfj, hjn⟩, ⟨hcg, hgk, hko⟩, hdh, hhl, hlp⟩
    intro x hx
    rcases hx with (rfl | rfl | rfl | rfl) | (rfl | rfl | rfl | rfl) |
      (rfl | rfl | rfl | rfl) | (rfl | rfl | rfl | rfl)
    exacts [ha0, hb0, hc0, hd0, he0, hf0, hg0, hh0, hi0, hj0, hk0, hl0,
      hm0, hn0, ho0, hp0]
  · rintro ⟨hz, ⟨⟨hab, hbc, hcd⟩, ⟨hef, hfg, hgh⟩, ⟨hij, hjk, hkl⟩,
        hmn, hno, hop⟩,
      ⟨hae, hei, him⟩, ⟨hbf, hfj, hjn⟩, ⟨hcg, hgk, hko⟩, hdh, hhl, hlp⟩
    have hza : a ≠ 0 := hz a (by simp)
    have hzb : b ≠ 0 := hz b (by simp)
    have hzc : c ≠ 0 := hz c (by simp)
    have hzd : d ≠ 0 := hz d (by simp)
    have hze : e ≠ 0 := hz e (by simp)
    have hzf : f ≠ 0 := hz f (by simp)
    have hzg : g ≠ 0 := hz g (by simp)
    have hzh : h ≠ 0 := hz h (by simp)
    have hzi : i ≠ 0 := hz i (by simp)
    have hzj : j ≠ 0 := hz j (by simp)
    have hzk : k ≠ 0 := hz k (by simp)
    have hzl : l ≠ 0 := hz l (by simp)
    have hzm : m ≠ 0 := hz m (by simp)
    have hzn : n ≠ 0 := hz n (by simp)
    have hzo : o ≠ 0 := hz o (by simp)
    have hzp : p ≠ 0 := hz p (by simp)
    push_neg
    exact ⟨⟨⟨⟨hab, hza, hzb⟩, ⟨hbc, hzb, hzc⟩, ⟨hcd, hzc, hzd⟩⟩,
        ⟨⟨hef, hze, hzf⟩, ⟨hfg, hzf, hzg⟩, ⟨hgh, hzg, hzh⟩⟩,
        ⟨⟨hij, hzi, hzj⟩, ⟨hjk, hzj, hzk⟩, ⟨hkl, hzk, hzl⟩⟩,
        ⟨hmn, hzm, hzn⟩, ⟨hno, hzn, hzo⟩, ⟨hop, hzo, hzp⟩⟩,
      ⟨⟨hae, hza, hze⟩, ⟨hei, hze, hzi⟩, ⟨him, hzi, hzm⟩⟩,
      ⟨⟨hbf, hzb, hzf⟩, ⟨hfj, hzf, hzj⟩, ⟨hjn, hzj, hzn⟩⟩,
      ⟨⟨hcg, hzc, hzg⟩, ⟨hgk, hzg, hzk⟩, ⟨hko, hzk, hzo⟩⟩,
      ⟨hdh, hzd, hzh⟩, ⟨hhl, hzh, hzl⟩, ⟨hlp, hzl, hzp⟩⟩
/-- The changed flag computed over a board zipped with itself is false. -/
theorem changed_flag_self_false (r1 r2 r3 r4 : List Nat) :
    (([r1, r2, r3, r4].zip [r1, r2, r3, r4]).any
      (fun q => decide (q.1 ≠ q.2))) = false := by
  simp [List.zip]

/-- On a terminal board every one of the four moves reports changed=false. -/
theorem moves_unchanged_of_game_over (a b c d e f g h i j k l m n o p : Nat)
    (hgo : is_game_over (mkBoard a b c d e f g h i j k l m n o p) = true) :
    ∀ dir, (dir = 'a' ∨ dir = 'd' ∨ dir = 'w' ∨ dir = 's') →
      ∃ g2 s, move (mkBoard a b c d e f g h i j k l m n o p) dir =
        some (g2, s, false) := by
  have hspec := (is_game_over_mk_iff a b c d e f g h i j k l m n o p).mp hgo
  obtain ⟨hz, ⟨⟨hab, hbc, hcd⟩, ⟨hef, hfg, hgh⟩, ⟨hij, hjk, hkl⟩,
      hmn, hno, hop⟩,
    ⟨hae, hei, him⟩, ⟨hbf, hfj, hjn⟩, ⟨hcg, hgk, hko⟩, hdh, hhl, hlp⟩ := by
    simpa only [NoEmptyNoAdjacent, mkBoard, transpose_mk,
      List.forall_mem_cons, List.forall_mem_nil, and_true,
      List.chain'_cons, List.chain'_singleton, forall_eq_or_imp,
      forall_eq, List.mem_cons, List.not_mem_nil, or_false] using hspec
  have hza : a ≠ 0 := hz a (by simp [mkBoard])
  have hzb : b ≠ 0 := hz b (by simp [mkBoard])
  have hzc : c ≠ 0 := hz c (by simp [mkBoard])
  have hzd : d ≠ 0 := hz d (by simp [mkBoard])
  have hze : e ≠ 0 := hz e (by simp [mkBoard])
  have hzf : f ≠ 0 := hz f (by simp [mkBoard])
  have hzg : g ≠ 0 := hz g (by simp [mkBoard])
  have hzh : h ≠ 0 := hz h (by simp [mkBoard])
  have hzi : i ≠ 0 := hz i (by simp [mkBoard])
  have hzj : j ≠ 0 := hz j (by simp [mkBoard])
  have hzk : k ≠ 0 := hz k (by simp [mkBoard])
  have hzl : l ≠ 0 := hz l (by simp [mkBoard])
  have hzm : m ≠ 0 := hz m (by simp [mkBoard])
  have hzn : n ≠ 0 := hz n (by simp [mkBoard])
  have hzo : o ≠ 0 := hz o (by simp [mkBoard])
  have hzp : p ≠ 0 := hz p (by simp [mkBoard])
  have hr1 : (merge_tiles [a, b, c, d]).1 = [a, b, c, d] :=
    (merge_unchanged_iff a b c d).mpr
      ⟨fun h0 => absurd h0 hza, fun h0 => absurd h0 hzb,
       fun h0 => absurd h0 hzc, fun _ => hab, fun _ => hbc, fun _ => hcd⟩
  have hr2 : (merge_tiles [e, f, g, h]).1 = [e, f, g, h] :=
    (merge_unchanged_iff e f g h).mpr
      ⟨fun h0 => absurd h0 hze, fun h0 => absurd h0 hzf,
       fun h0 => absurd h0 hzg, fun _ => hef, fun _ => hfg, fun _ => hgh⟩
  have hr3 : (merge_tiles [i, j, k, l]).1 = [i, j, k, l] :=
    (merge_unchanged_iff i j k l).mpr
      ⟨fun h0 => absurd h0 hzi, fun h0 => absurd h0 hzj,
       fun h0 => absurd h0 hzk, fun _ => hij, fun _ => hjk, fun _ => hkl⟩
  have hr4 : (merge_tiles [m, n, o, p]).1 = [m, n, o, p] :=
    (merge_unchanged_iff m n o p).mpr
      ⟨fun h0 => absurd h0 hzm, fun h0 => absurd h0 hzn,
       fun h0 => absurd h0 hzo, fun _ => hmn, fun _ => hno, fun _ => hop⟩
  have hr1r : (merge_tiles [d, c, b, a]).1 = [d, c, b, a] :=
    (merge_unchanged_iff d c b a).mpr
      ⟨fun h0 => absurd h0 hzd, fun h0 => absurd h0 hzc,
       fun h0 => absurd h0 hzb, fun _ => Ne.symm hcd, fun _ => Ne.symm hbc,
       fun _ => Ne.symm hab⟩
  have hr2r : (merge_tiles [h, g, f, e]).1 = [h, g, f, e] :=
    (merge_unchanged_iff h g f e).mpr
      ⟨fun h0 => absurd h0 hzh, fun h0 => absurd h0 hzg,
       fun h0 => absurd h0 hzf, fun _ => Ne.symm hgh, fun _ => Ne.symm hfg,
       fun _ => Ne.symm hef⟩
  have hr3r : (merge_tiles [l, k, j, i]).1 = [l, k, j, i] :=
    (merge_unchanged_iff l k j i).mpr
      ⟨fun h0 => absurd h0 hzl, fun h0 => absurd h0 hzk,
       fun h0 => absurd h0 hzj, fun _ => Ne.symm hkl, fun _ => Ne.symm hjk,
       fun _ => Ne.symm hij⟩
  have hr4r : (merge_tiles [p, o, n, m]).1 = [p, o, n, m] :=
    (merge_unchanged_iff p o n m).mpr
      ⟨fun h0 => absurd h0 hzp, fun h0 => absurd h0 hzo,
       fun h0 => absurd h0 hzn, fun _ => Ne.symm hop, fun _ => Ne.symm hno,
       fun _ => Ne.symm hmn⟩
  have hc1 : (merge_tiles [a, e, i, m]).1 = [a, e, i, m] :=
    (merge_unchanged_iff a e i m).mpr
      ⟨fun h0 => absurd h0 hza, fun h0 => absurd h0 hze,
       fun h0 => absurd h0 hzi, fun _ => hae, fun _ => hei, fun _ => him⟩
  have hc2 : (merge_tiles [b, f, j, n]).1 = [b, f, j, n] :=
    (merge_unchanged_iff b f j n).mpr
      ⟨fun h0 => absurd h0 hzb, fun h0 => absurd h0 hzf,
       fun h0 => absurd h0 hzj, fun _ => hbf, fun _ => hfj, fun _ => hjn⟩
  have hc3 : (merge_tiles [c, g, k, o]).1 = [c, g, k, o] :=
    (merge_unchanged_iff c g k o).mpr
      ⟨fun h0 => absurd h0 hzc, fun h0 => absurd h0 hzg,
       fun h0 => absurd h0 hzk, fun _ => hcg, fun _ => hgk, fun _ => hko⟩
  have hc4 : (merge_tiles [d, h, l, p]).1 = [d, h, l, p] :=
    (merge_unchanged_iff d h l p).mpr
      ⟨fun h0 => absurd h0 hzd, fun h0 => absurd h0 hzh,
       fun h0 => absurd h0 hzl, fun _ => hdh, fun _ => hhl, fun _ => hlp⟩
  have hc1r : (merge_tiles [m, i, e, a]).1 = [m, i, e, a] :=
    (merge_unchanged_iff m i e a).mpr
      ⟨fun h0 => absurd h0 hzm, fun h0 => absurd h0 hzi,
       fun h0 => absurd h0 hze, fun _ => Ne.symm him, fun _ => Ne.symm hei,
       fun _ => Ne.symm hae⟩
  have hc2r : (merge_tiles [n, j, f, b]).1 = [n, j, f, b] :=
    (merge_unchanged_iff n j f b).mpr
      ⟨fun h0 => absurd h0 hzn, fun h0 => absurd h0 hzj,
       fun h0 => absurd h0 hzf, fun _ => Ne.symm hjn, fun _ => Ne.symm hfj,
       fun _ => Ne.symm hbf⟩
  have hc3r : (merge_tiles [o, k, g, c]).1 = [o, k, g, c] :=
    (merge_unchanged_iff o k g c).mpr
      ⟨fun h0 => absurd h0 hzo, fun h0 => absurd h0 hzk,
       fun h0 => absurd h0 hzg, fun _ => Ne.symm hko, fun _ => Ne.symm hgk,
       fun _ => Ne.symm hcg⟩
  have hc4r : (merge_tiles [p, l, h, d]).1 = [p, l, h, d] :=
    (merge_unchanged_iff p l h d).mpr
      ⟨fun h0 => absurd h0 hzp, fun h0 => absurd h0 hzl,
       fun h0 => absurd h0 hzh, fun _ => Ne.symm hlp, fun _ => Ne.symm hhl,
       fun _ => Ne.symm hdh⟩
  rintro dir (rfl | rfl | rfl | rfl)
  · refine ⟨(move_left (mkBoard a b c d e f g h i j k l m n o p)).1,
      (move_left (mkBoard a b c d e f g h i j k l m n o p)).2, ?_⟩
    simp only [move, reduceIte, Option.map_some', Option.some.injEq,
      Prod.mk.injEq]
    refine ⟨trivial, trivial, ?_⟩
    simp only [mkBoard, move_left, List.map, hr1, hr2, hr3, hr4]
    rw [changed_flag_self_false]
  · refine ⟨(move_right (mkBoard a b c d e f g h i j k l m n o p)).1,
      (move_right (mkBoard a b c d e f g h i j k l m n o p)).2, ?_⟩
    simp only [move, reduceIte, Char.reduceEq, Option.map_some',
      Option.some.injEq, Prod.mk.injEq]
    refine ⟨trivial, trivial, ?_⟩
    simp only [mkBoard, move_right, List.map, List.reverse_cons,
      List.reverse_nil, List.nil_append, List.cons_append, hr1r, hr2r,
      hr3r, hr4r]
    rw [changed_flag_self_false]
  · refine ⟨(move_up (mkBoard a b c d e f g h i j k l m n o p)).1,
      (move_up (mkBoard a b c d e f g h i j k l m n o p)).2, ?_⟩
    simp only [move, reduceIte, Char.reduceEq, Option.map_some',
      Option.some.injEq, Prod.mk.injEq]
    refine ⟨trivial, trivial, ?_⟩
    simp only [move_up, mkBoard]
    rw [transpose_mk]
    simp only [move_left, List.map]
    rw [hc1, hc2, hc3, hc4, transpose_mk]
    rw [changed_flag_self_false]
  · refine ⟨(move_down (mkBoard a b c d e f g h i j k l m n o p)).1,
      (move_down (mkBoard a b c d e f g h i j k l m n o p)).2, ?_⟩
    simp only [move, reduceIte, Char.reduceEq, Option.map_some',
      Option.some.injEq, Prod.mk.injEq]
    refine ⟨trivial, trivial, ?_⟩
    simp only [move_down, mkBoard]
    rw [transpose_mk]
    simp only [move_right, List.map, List.reverse_cons, List.reverse_nil,
      List.nil_append, List.cons_append]
    rw [hc1r, hc2r, hc3r, hc4r]
    simp only [List.reverse_cons, List.reverse_nil, List.nil_append,
      List.cons_append]
    rw [transpose_mk]
    rw [changed_flag_self_false]
/-- A false changed flag forces every output row to equal its input row. -/
theorem changed_flag_eq_of_false (r1 r2 r3 r4 s1 s2 s3 s4 : List Nat)
    (h : (([r1, r2, r3, r4].zip [s1, s2, s3, s4]).any
      (fun q => decide (q.1 ≠ q.2))) = false) :
    r1 = s1 ∧ r2 = s2 ∧ r3 = s3 ∧ r4 = s4 := by
  simp [List.zip] at h
  tauto

set_option maxHeartbeats 1600000 in
/-- On a board with at least one tile, if all four moves report
changed=false then the board is terminal. -/
theorem game_over_of_moves_unchanged (a b c d e f g h i j k l m n o p : Nat)
    (hnz : ∃ x ∈ (mkBoard a b c d e f g h i j k l m n o p).flatten, x ≠ 0)
    (hmoves : ∀ dir, (dir = 'a' ∨ dir = 'd' ∨ dir = 'w' ∨ dir = 's') →
      ∃ g2 s, move (mkBoard a b c d e f g h i j k l m n o p) dir =
        some (g2, s, false)) :
    is_game_over (mkBoard a b c d e f g h i j k l m n o p) = true := by
  -- left move unchanged: per-row conditions
  obtain ⟨ga, sa, hma⟩ := hmoves 'a' (Or.inl rfl)
  simp only [move, mkBoard, move_left, List.map, reduceIte,
    Option.map_some', Option.some.injEq, Prod.mk.injEq] at hma
  obtain ⟨-, -, hfa⟩ := hma
  obtain ⟨ha1, ha2, ha3, ha4⟩ := changed_flag_eq_of_false _ _ _ _ _ _ _ _ hfa
  obtain ⟨L1a, L1b, L1c, L1d, L1e, L1f⟩ :=
    (merge_unchanged_iff a b c d).mp ha1.symm
  obtain ⟨L2a, L2b, L2c, L2d, L2e, L2f⟩ :=
    (merge_unchanged_iff e f g h).mp ha2.symm
  obtain ⟨L3a, L3b, L3c, L3d, L3e, L3f⟩ :=
    (merge_unchanged_iff i j k l).mp ha3.symm
  obtain ⟨L4a, L4b, L4c, L4d, L4e, L4f⟩ :=
    (merge_unchanged_iff m n o p).mp ha4.symm
  -- right move unchanged: reversed-row conditions
  obtain ⟨gd, sd, hmd⟩ := hmoves 'd' (Or.inr (Or.inl rfl))
  simp only [move, mkBoard, move_right, List.map, reduceIte, Char.reduceEq,
    List.reverse_cons, List.reverse_nil, List.nil_append, List.cons_append,
    Option.map_some', Option.some.injEq, Prod.mk.injEq] at hmd
  obtain ⟨-, -, hfd⟩ := hmd
  obtain ⟨hd1, hd2, hd3, hd4⟩ := changed_flag_eq_of_false _ _ _ _ _ _ _ _ hfd
  have hd1r : (merge_tiles [d, c, b, a]).1 = [d, c, b, a] := by
    have := congrArg List.reverse hd1
    simpa using this.symm
  have hd2r : (merge_tiles [h, g, f, e]).1 = [h, g, f, e] := by
    have := congrArg List.reverse hd2
    simpa using this.symm
  have hd3r : (merge_tiles [l, k, j, i]).1 = [l, k, j, i] := by
    have := congrArg List.reverse hd3
    simpa using this.symm
  have hd4r : (merge_tiles [p, o, n, m]).1 = [p, o, n, m] := by
    have := congrArg List.reverse hd4
    simpa using this.symm
  obtain ⟨R1a, R1b, R1c, R1d, R1e, R1f⟩ :=
    (merge_unchanged_iff d c b a).mp hd1r
  obtain ⟨R2a, R2b, R2c, R2d, R2e, R2f⟩ :=
    (merge_unchanged_iff h g f e).mp hd2r
  obtain ⟨R3a, R3b, R3c, R3d, R3e, R3f⟩ :=
    (merge_unchanged_iff l k j i).mp hd3r
  obtain ⟨R4a, R4b, R4c, R4d, R4e, R4f⟩ :=
    (merge_unchanged_iff p o n m).mp hd4r
  -- up move unchanged: per-column conditions
  obtain ⟨gw, sw, hmw⟩ := hmoves 'w' (Or.inr (Or.inr (Or.inl rfl)))
  obtain ⟨a1, a2, a3, a4, hA⟩ := merge_tiles_four a e i m
  obtain ⟨b1, b2, b3, b4, hB⟩ := merge_tiles_four b f j n
  obtain ⟨c1, c2, c3, c4, hC⟩ := merge_tiles_four c g k o
  obtain ⟨d1, d2, d3, d4, hD⟩ := merge_tiles_four d h l p
  simp only [move, mkBoard, move_up, reduceIte, Char.reduceEq] at hmw
  rw [transpose_mk] at hmw
  simp only [move_left, List.map] at hmw
  rw [hA, hB, hC, hD, transpose_mk] at hmw
  simp only [Option.map_some', Option.some.injEq, Prod.mk.injEq] at hmw
  obtain ⟨-, -, hfw⟩ := hmw
  obtain ⟨hw1, hw2, hw3, hw4⟩ := changed_flag_eq_of_false _ _ _ _ _ _ _ _ hfw
  simp only [List.cons.injEq, and_true] at hw1 hw2 hw3 hw4
  obtain ⟨ea1, eb1, ec1, ed1⟩ := hw1
  obtain ⟨ea2, eb2, ec2, ed2⟩ := hw2
  obtain ⟨ea3, eb3, ec3, ed3⟩ := hw3
  obtain ⟨ea4, eb4, ec4, ed4⟩ := hw4
  have hcol1 : (merge_tiles [a, e, i, m]).1 = [a, e, i, m] := by
    rw [hA, ← ea1, ← ea2, ← ea3, ← ea4]
  have hcol2 : (merge_tiles [b, f, j, n]).1 = [b, f, j, n] := by
    rw [hB, ← eb1, ← eb2, ← eb3, ← eb4]
  have hcol3 : (merge_tiles [c, g, k, o]).1 = [c, g, k, o] := by
    rw [hC, ← ec1, ← ec2, ← ec3, ← ec4]
  have hcol4 : (merge_tiles [d, h, l, p]).1 = [d, h, l, p] := by
    rw [hD, ← ed1, ← ed2, ← ed3, ← ed4]
  obtain ⟨U1a, U1b, U1c, U1d, U1e, U1f⟩ :=
    (merge_unchanged_iff a e i m).mp hcol1
  obtain ⟨U2a, U2b, U2c, U2d, U2e, U2f⟩ :=
    (merge_unchanged_iff b f j n).mp hcol2
  obtain ⟨U3a, U3b, U3c, U3d, U3e, U3f⟩ :=
    (merge_unchanged_iff c g k o).mp hcol3
  obtain ⟨U4a, U4b, U4c, U4d, U4e, U4f⟩ :=
    (merge_unchanged_iff d h l p).mp hcol4
  -- down move unchanged: reversed-column conditions
  obtain ⟨gs, ss, hms⟩ := hmoves 's' (Or.inr (Or.inr (Or.inr rfl)))
  obtain ⟨a5, a6, a7, a8, hA2⟩ := merge_tiles_four m i e a
  obtain ⟨b5, b6, b7, b8, hB2⟩ := merge_tiles_four n j f b
  obtain ⟨c5, c6, c7, c8, hC2⟩ := merge_tiles_four o k g c
  obtain ⟨d5, d6, d7, d8, hD2⟩ := merge_tiles_four p l h d
  simp only [move, mkBoard, move_down, reduceIte, Char.reduceEq] at hms
  rw [transpose_mk] at hms
  simp only [move_right, List.map, List.reverse_cons, List.reverse_nil,
    List.nil_append, List.cons_append] at hms
  rw [hA2, hB2, hC2, hD2] at hms
  simp only [List.reverse_cons, List.reverse_nil, List.nil_append,
    List.cons_append] at hms
  rw [transpose_mk] at hms
  simp only [Option.map_some', Option.some.injEq, Prod.mk.injEq] at hms
  obtain ⟨-, -, hfs⟩ := hms
  obtain ⟨hs1, hs2, hs3, hs4⟩ := changed_flag_eq_of_false _ _ _ _ _ _ _ _ hfs
  simp only [List.cons.injEq, and_true] at hs1 hs2 hs3 hs4
  obtain ⟨fa1, fb1, fc1, fd1⟩ := hs1
  obtain ⟨fa2, fb2, fc2, fd2⟩ := hs2
  obtain ⟨fa3, fb3, fc3, fd3⟩ := hs3
  obtain ⟨fa4, fb4, fc4, fd4⟩ := hs4
  have hcol1r : (merge_tiles [m, i, e, a]).1 = [m, i, e, a] := by
    rw [hA2, ← fa1, ← fa2, ← fa3, ← fa4]
  have hcol2r : (merge_tiles [n, j, f, b]).1 = [n, j, f, b] := by
    rw [hB2, ← fb1, ← fb2, ← fb3, ← fb4]
  have hcol3r : (merge_tiles [o, k, g, c]).1 = [o, k, g, c] := by
    rw [hC2, ← fc1, ← fc2, ← fc3, ← fc4]
  have hcol4r : (merge_tiles [p, l, h, d]).1 = [p, l, h, d] := by
    rw [hD2, ← fd1, ← fd2, ← fd3, ← fd4]
  obtain ⟨D1a, D1b, D1c, D1d, D1e, D1f⟩ :=
    (merge_unchanged_iff m i e a).mp hcol1r
  obtain ⟨D2a, D2b, D2c, D2d, D2e, D2f⟩ :=
    (merge_unchanged_iff n j f b).mp hcol2r
  obtain ⟨D3a, D3b, D3c, D3d, D3e, D3f⟩ :=
    (merge_unchanged_iff o k g c).mp hcol3r
  obtain ⟨D4a, D4b, D4c, D4d, D4e, D4f⟩ :=
    (merge_unchanged_iff p l h d).mp hcol4r
  -- the board is not all-zero, so no cell is zero
  by_cases hza : a = 0
  · exfalso
    have hzb := L1a hza
    have hzc := L1b hzb
    have hzd := L1c hzc
    have hze := U1a hza
    have hzi := U1b hze
    have hzm := U1c hzi
    have hzf := L2a hze
    have hzg := L2b hzf
    have hzh := L2c hzg
    have hzj := L3a hzi
    have hzk := L3b hzj
    have hzl := L3c hzk
    have hzn := L4a hzm
    have hzo := L4b hzn
    have hzp := L4c hzo
    obtain ⟨x, hx, hxne⟩ := hnz
    simp only [mkBoard, List.flatten_cons, List.flatten_nil,
      List.append_nil, List.mem_append, List.mem_cons, List.not_mem_nil,
      or_false] at hx
    rcases hx with (rfl | rfl | rfl | rfl) | (rfl | rfl | rfl | rfl) |
      (rfl | rfl | rfl | rfl) | (rfl | rfl | rfl | rfl) <;> omega
  · have hza2 : a ≠ 0 := hza
    have hzb : b ≠ 0 := fun h0 => hza2 (R1c h0)
    have hzc : c ≠ 0 := fun h0 => hzb (R1b h0)
    have hzd : d ≠ 0 := fun h0 => hzc (R1a h0)
    have hze : e ≠ 0 := fun h0 => hza2 (D1c h0)
    have hzi : i ≠ 0 := fun h0 => hze (D1b h0)
    have hzm : m ≠ 0 := fun h0 => hzi (D1a h0)
    have hzf : f ≠ 0 := fun h0 => hze (R2c h0)
    have hzg : g ≠ 0 := fun h0 => hzf (R2b h0)
    have hzh : h ≠ 0 := fun h0 => hzg (R2a h0)
    have hzj : j ≠ 0 := fun h0 => hzi (R3c h0)
    have hzk : k ≠ 0 := fun h0 => hzj (R3b h0)
    have hzl : l ≠ 0 := fun h0 => hzk (R3a h0)
    have hzn : n ≠ 0 := fun h0 => hzm (R4c h0)
    have hzo : o ≠ 0 := fun h0 => hzn (R4b h0)
    have hzp : p ≠ 0 := fun h0 => hzo (R4a h0)
    rw [is_game_over_mk_iff]
    refine ⟨?_, ?_, ?_⟩
    · intro x hx
      simp only [mkBoard, List.flatten_cons, List.flatten_nil,
        List.append_nil, List.mem_append, List.mem_cons, List.not_mem_nil,
        or_false] at hx
      rcases hx with (rfl | rfl | rfl | rfl) | (rfl | rfl | rfl | rfl) |
        (rfl | rfl | rfl | rfl) | (rfl | rfl | rfl | rfl)
      exacts [hza2, hzb, hzc, hzd, hze, hzf, hzg, hzh, hzi, hzj, hzk, hzl,
        hzm, hzn, hzo, hzp]
    · intro row hrow
      simp only [mkBoard, List.mem_cons, List.not_mem_nil, or_false] at hrow
      rcases hrow with rfl | rfl | rfl | rfl <;>
        simp only [List.chain'_cons, List.chain'_singleton, and_true]
      · exact ⟨L1d hza2, L1e hzb, L1f hzc⟩
      · exact ⟨L2d hze, L2e hzf, L2f hzg⟩
      · exact ⟨L3d hzi, L3e hzj, L3f hzk⟩
      · exact ⟨L4d hzm, L4e hzn, L4f hzo⟩
    · intro col hcol
      simp only [mkBoard, transpose_mk, List.mem_cons, List.not_mem_nil,
        or_false] at hcol
      rcases hcol with rfl | rfl | rfl | rfl <;>
        simp only [List.chain'_cons, List.chain'_singleton, and_true]
      · exact ⟨U1d hza2, U1e hze, U1f hzi⟩
      · exact ⟨U2d hzb, U2e hzf, U2f hzj⟩
      · exact ⟨U3d hzc, U3e hzg, U3f hzk⟩
      · exact ⟨U4d hzd, U4e hzh, U4f hzl⟩
/-- C1 (amended): `is_game_over` holds iff no cell is empty and no two
adjacent cells are equal; and on every board with at least one nonzero
tile, `is_game_over` holds iff all four moves report changed=false.  (The
move-based equivalence fails on the all-empty board, see the
counterexample below.) -/
theorem is_terminal_characterization (a b c d e f g h i j k l m n o p : Nat) :
    (is_game_over (mkBoard a b c d e f g h i j k l m n o p) = true ↔
      NoEmptyNoAdjacent (mkBoard a b c d e f g h i j k l m n o p)) ∧
    ((∃ x ∈ (mkBoard a b c d e f g h i j k l m n o p).flatten, x ≠ 0) →
      (is_game_over (mkBoard a b c d e f g h i j k l m n o p) = true ↔
        ∀ dir, (dir = 'a' ∨ dir = 'd' ∨ dir = 'w' ∨ dir = 's') →
          ∃ g2 s, move (mkBoard a b c d e f g h i j k l m n o p) dir =
            some (g2, s, false))) :=
  ⟨is_game_over_mk_iff a b c d e f g h i j k l m n o p,
   fun hnz =>
    ⟨moves_unchanged_of_game_over a b c d e f g h i j k l m n o p,
     game_over_of_moves_unchanged a b c d e f g h i j k l m n o p hnz⟩⟩

/-- Witness for C1 (amended) at a concrete terminal board. -/
theorem is_terminal_characterization_witness :
    is_game_over (mkBoard 2 4 2 4 4 2 4 2 2 4 2 4 4 2 4 2) = true ↔
      ∀ dir, (dir = 'a' ∨ dir = 'd' ∨ dir = 'w' ∨ dir = 's') →
        ∃ g2 s, move (mkBoard 2 4 2 4 4 2 4 2 2 4 2 4 4 2 4 2) dir =
          some (g2, s, false) :=
  (is_terminal_characterization 2 4 2 4 4 2 4 2 2 4 2 4 4 2 4 2).2
    ⟨2, by decide, by decide⟩

/-- Counterexample to C1 as stated: on the all-empty board every one of the
four moves reports changed=false, yet `is_game_over` is false. -/
theorem is_terminal_zero_board_counterexample :
    is_game_over (mkBoard 0 0 0 0 0 0 0 0 0 0 0 0 0 0 0 0) = false ∧
    (∀ dir, (dir = 'a' ∨ dir = 'd' ∨ dir = 'w' ∨ dir = 's') →
      ∃ g2 s, move (mkBoard 0 0 0 0 0 0 0 0 0 0 0 0 0 0 0 0) dir =
        some (g2, s, false)) := by
  constructor
  · decide
  · rintro dir (rfl | rfl | rfl | rfl)
    · exact ⟨mkBoard 0 0 0 0 0 0 0 0 0 0 0 0 0 0 0 0, 0, by decide⟩
    · exact ⟨mkBoard 0 0 0 0 0 0 0 0 0 0 0 0 0 0 0 0, 0, by decide⟩
    · exact ⟨mkBoard 0 0 0 0 0 0 0 0 0 0 0 0 0 0 0 0, 0, by decide⟩
    · exact ⟨mkBoard 0 0 0 0 0 0 0 0 0 0 0 0 0 0 0 0, 0, by decide⟩

end Game2048
